import Mathlib

/-!
Shallow embedding of the Shenzhen-solitaire board model from `src/board.rs`.

The Rust code stores cards behind `Rc`; `Rc<T>`'s equality, ordering and
hashing all delegate to `T`, so the embedding works with plain values.
Vectors index 0 at the bottom of a column, and the exposed top card is the
last element; the Lean lists keep the same orientation.
Rust `panic!`/`unreachable!` branches are modelled either by `Option`
results (`none` = the program aborts, no value is produced) or, inside
total functions, by explicitly marked junk branches that are unreachable
for the boards the program constructs.
-/

namespace Shenzhen

inductive Suit where
  | black
  | green
  | red
deriving DecidableEq

/-- Rust `enum Card`: `JokerCard`, `DragonCard{suit}`, `NumberCard{suit, rank}`,
and the `DragonStack` sentinel for four grouped dragons. -/
inductive Card where
  | joker
  | dragon (suit : Suit)
  | number (suit : Suit) (rank : Nat)
  | dragonStack
deriving DecidableEq

/-- `Card::can_hold`: a number card holds exactly a number card of the
other suit whose rank is one less. -/
def Card.canHold : Card → Card → Bool
  | .number selfSuit selfRank, .number cardSuit cardRank =>
      decide (selfSuit ≠ cardSuit) && decide (selfRank = cardRank + 1)
  | _, _ => false

/-- Rust `enum CardCell`: joker slot, free slot, column (`GameCell`), goal pile. -/
inductive CardCell where
  | jokerCell (hasJoker : Bool)
  | freeCell (card : Option Card)
  | gameCell (cardStack : List Card)
  | goalCell (topCard : Option Card)
deriving DecidableEq

namespace CardCell

/-- `CardCell::accept_stack`: only game cells accept stacks; a non-empty
column additionally requires its top card to hold the bottom of the arriving
stack.  The Rust code panics on a non-`GameCell` receiver and on an empty
`cards` slice with a non-empty column (`expect`); both are junk `none` here
(every caller passes a game cell and a non-empty stack). -/
def acceptStack (cell : CardCell) (cards : List Card) : Option CardCell :=
  match cell with
  | .gameCell cardStack =>
    match cardStack.getLast? with
    | some last =>
      match cards.head? with
      | some c => if last.canHold c then some (.gameCell (cardStack ++ cards)) else none
      | none => none
    | none => some (.gameCell (cardStack ++ cards))
  | _ => none

/-- `CardCell::accept`, with the Rust match arms in source order. -/
def accept (cell : CardCell) (card : Card) : Option CardCell :=
  match cell, card with
  | _, .dragonStack => none
  | .jokerCell _, .joker => some (.jokerCell true)
  | .freeCell none, c => some (.freeCell (some c))
  | .goalCell none, .number s 1 => some (.goalCell (some (.number s 1)))
  | .goalCell (some (.number topSuit topRank)), .number s r =>
      if topSuit = s ∧ topRank + 1 = r then some (.goalCell (some (.number s r))) else none
  | .goalCell (some _), .number _ _ => none
  | .gameCell st, c => acceptStack (.gameCell st) [c]
  | _, _ => none

/-- `CardCell::top`: the exposed card of a cell (the joker slot never
exposes a card, filled or not). -/
def top : CardCell → Option Card
  | .goalCell (some c) => some c
  | .freeCell (some c) => some c
  | .gameCell st => st.getLast?
  | _ => none

/-- `CardCell::pop`, with its exact domain: `none` models the Rust
`panic!` on joker and goal cells. -/
def popQ : CardCell → Option CardCell
  | .gameCell st => some (.gameCell st.dropLast)
  | .freeCell _ => some (.freeCell none)
  | _ => none

/-- Total version of `CardCell::pop` used inside loops.  On the two
panicking cell kinds it removes the top item; the program never reaches
those branches, and the convention keeps every loop measure decreasing. -/
def pop : CardCell → CardCell
  | .gameCell st => .gameCell st.dropLast
  | .freeCell _ => .freeCell none
  | .goalCell _ => .goalCell none
  | .jokerCell b => .jokerCell b

/-- `CardCell::pop_n`, with its exact domain: `none` models the Rust
panics (non-game cell, or slice-index underflow when `n` exceeds the
column height). -/
def popNQ (cell : CardCell) (n : Nat) : Option CardCell :=
  match cell with
  | .gameCell st => if n ≤ st.length then some (.gameCell (st.take (st.length - n))) else none
  | _ => none

/-- Total version of `CardCell::pop_n` (callers always guard `n` by the
run length, so the junk branches are unreachable). -/
def popN (cell : CardCell) (n : Nat) : CardCell :=
  match cell with
  | .gameCell st => .gameCell (st.take (st.length - n))
  | other => other

/-- Helper for `CardCell::iter_stack`: extend the chain downward from
`last` through cards that may hold it. -/
def chainUp : Card → List Card → List Card
  | last, c :: cs => if c.canHold last then c :: chainUp c cs else []
  | _, [] => []

/-- `CardCell::iter_stack`: the maximal chained suffix of a column,
returned bottom-to-top; the exposed top card is always included.  The Rust
code panics on non-game cells (junk `[]` here). -/
def iterStack : CardCell → List Card
  | .gameCell st =>
    match st.reverse with
    | [] => []
    | t :: rest => (t :: chainUp t rest).reverse
  | _ => []

end CardCell

/-- Rust `enum CardCellIndex`; there is no index for the joker slot. -/
inductive CardCellIndex where
  | freeCellIndex (n : Nat)
  | goalCellIndex (n : Nat)
  | gameCellIndex (n : Nat)
deriving DecidableEq

/-- Rust `enum MoveStackError`. -/
inductive MoveStackError where
  | ambiguousMove (maxHeight : Nat)
  | invalidMove
deriving DecidableEq

/-- Rust `struct Board`: 1 joker slot, 3 free slots, 3 goal piles,
8 columns.  The fixed array lengths of the Rust struct are tracked by
hypotheses where a theorem needs them. -/
structure Board where
  jokerCell : CardCell
  freeCells : List CardCell
  goalCells : List CardCell
  gameCells : List CardCell
deriving DecidableEq

/-- Out-of-range list access panics in Rust.  The junk default cell
rejects every incoming card, exposes only the immovable `DragonStack`,
and cannot be popped, so an out-of-range index never yields a successful
move in the embedding, matching the absence of a result in Rust. -/
def junkCell : CardCell := .goalCell (some .dragonStack)

namespace Board

/-- `Board::get_cell`. -/
def getCell (b : Board) : CardCellIndex → CardCell
  | .freeCellIndex n => b.freeCells.getD n junkCell
  | .goalCellIndex n => b.goalCells.getD n junkCell
  | .gameCellIndex n => b.gameCells.getD n junkCell

/-- `Board::replace_cell` (out-of-range `List.set` is a no-op; Rust would
have panicked earlier on the corresponding access). -/
def replaceCell (b : Board) (index : CardCellIndex) (newCell : CardCell) : Board :=
  match index with
  | .freeCellIndex n => { b with freeCells := b.freeCells.set n newCell }
  | .goalCellIndex n => { b with goalCells := b.goalCells.set n newCell }
  | .gameCellIndex n => { b with gameCells := b.gameCells.set n newCell }

/-- `Board::move_n_cards_by_idx`.  Note that the destination cell is read
after the source cell has been replaced, exactly as in the Rust code
(which matters when `source = dest`). -/
def moveNCardsByIdx (b : Board) (source dest n : Nat) : Option Board :=
  let stack := (b.gameCells.getD source junkCell).iterStack
  if n = 0 ∨ stack.length < n then none
  else
    let g1 := b.gameCells.set source ((b.gameCells.getD source junkCell).popN n)
    let substack := stack.drop (stack.length - n)
    match (g1.getD dest junkCell).acceptStack substack with
    | some newDest => some { b with gameCells := g1.set dest newDest }
    | none => none

/-- `Board::move_number_card_stack`: the forced count is the saturating
difference of the two top ranks (`u8::saturating_sub` is `Nat` subtraction). -/
def moveNumberCardStack (b : Board) (source dest : Nat) : Option Board :=
  match (b.gameCells.getD dest junkCell).top with
  | some (.number _ topDestRank) =>
    match (b.gameCells.getD source junkCell).top with
    | some (.number _ topSourceRank) =>
        b.moveNCardsByIdx source dest (topDestRank - topSourceRank)
    | _ => none
  | _ => none

/-- `Board::move_stack`.  The outer `Option` models the Rust panic inside
`source_cell.pop()` when the source is a goal pile whose top some other
cell accepts: Rust aborts there, producing no result at all.  The
`AmbiguousMove` height carries the `as u8` truncation of the run length. -/
def moveStack (b : Board) (source dest : CardCellIndex) :
    Option (Except MoveStackError Board) :=
  if source = dest then some (.error .invalidMove)
  else
    let gamePair : Option (Except MoveStackError Board) :=
      match source, dest with
      | .gameCellIndex sourceIdx, .gameCellIndex destIdx =>
        if (b.gameCells.getD destIdx junkCell).top.isSome then
          some (match b.moveNumberCardStack sourceIdx destIdx with
            | some board => .ok board
            | none => .error .invalidMove)
        else
          let height := (b.gameCells.getD sourceIdx junkCell).iterStack.length
          if height > 1 then some (.error (.ambiguousMove (height % 256))) else none
      | _, _ => none
    match gamePair with
    | some r => some r
    | none =>
      let sourceCell := b.getCell source
      let destCell := b.getCell dest
      match sourceCell.top with
      | none => some (.error .invalidMove)
      | some sourceCard =>
        match destCell.accept sourceCard with
        | none => some (.error .invalidMove)
        | some newDest =>
          match sourceCell.popQ with
          | none => none
          | some popped =>
              some (.ok (((b.replaceCell dest newDest).replaceCell source popped)))

/-- `Board::move_n_cards`: the public wrapper panics unless both indices
are game cells; the outer `Option` is `none` on that panic. -/
def moveNCards (b : Board) (source dest : CardCellIndex) (n : Nat) :
    Option (Option Board) :=
  match source, dest with
  | .gameCellIndex sourceIdx, .gameCellIndex destIdx =>
      some (b.moveNCardsByIdx sourceIdx destIdx n)
  | _, _ => none

/-- `Board::is_solved`: all 8 columns empty. -/
def isSolved (b : Board) : Bool :=
  b.gameCells.all (fun cell => cell.top.isNone)

end Board

/-- The cell walk of `Board::remove_dragons`: pop every exposed dragon of
`suit`, threading the running count, and stop touching cells once four
have been removed (the Rust early `return true`). -/
def removeDragonsFrom (suit : Suit) : Nat → List CardCell → Nat × List CardCell
  | count, [] => (count, [])
  | count, c :: cs =>
    if count = 4 then (count, c :: cs)
    else
      match c.top with
      | some (.dragon dsuit) =>
        if dsuit = suit then
          let r := removeDragonsFrom suit (count + 1) cs
          (r.1, c.pop :: r.2)
        else
          let r := removeDragonsFrom suit count cs
          (r.1, c :: r.2)
      | _ =>
          let r := removeDragonsFrom suit count cs
          (r.1, c :: r.2)

namespace Board

/-- `Board::remove_dragons`: game cells are scanned before free cells;
the boolean reports whether all four dragons were removed. -/
def removeDragons (b : Board) (suit : Suit) : Board × Bool :=
  let g := removeDragonsFrom suit 0 b.gameCells
  let f := removeDragonsFrom suit g.1 b.freeCells
  ({ b with gameCells := g.2, freeCells := f.2 }, f.1 = 4)

end Board

/-- The free-cell walk of `Board::stack_dragons`: place a `DragonStack`
into the first cell whose top is empty. -/
def placeDragonStack : List CardCell → Option (List CardCell)
  | [] => none
  | c :: cs =>
    if c.top = none then some (.freeCell (some .dragonStack) :: cs)
    else (placeDragonStack cs).map (c :: ·)

namespace Board

/-- `Board::stack_dragons` (the spec calls it `group_dragons`). -/
def stackDragons (b : Board) (suit : Suit) : Option Board :=
  let r := b.removeDragons suit
  if r.2 then (placeDragonStack r.1.freeCells).map (fun f => { r.1 with freeCells := f })
  else none

end Board

/-- Per-goal value used by `Board::auto_safe_rank`: the top rank, 0 for an
empty pile (a non-number top in a goal pile is the Rust `unreachable!`,
junk 0 here). -/
def goalCellRank (cell : CardCell) : Nat :=
  match cell.top with
  | some (.number _ rank) => rank
  | _ => 0

/-- `Board::auto_safe_rank`: minimum goal-pile top rank plus 2.  The Rust
`expect` cannot fail on the sized array; an empty list is junk 2. -/
def Board.autoSafeRank (b : Board) : Nat :=
  match (b.goalCells.map goalCellRank).min? with
  | some m => m + 2
  | none => 2

/-- The pieces of `Board::do_automoves` state that a pass threads through
the cells it scans: the joker slot, the goal piles, and the progress flag. -/
structure AutoState where
  joker : CardCell
  goals : List CardCell
  progress : Bool
deriving DecidableEq

/-- The goal-pile loop inside `Board::do_automoves`: offer the card to
each goal pile in order and stop at the first that accepts it. -/
def tryGoals (card : Card) : List CardCell → Option (List CardCell)
  | [] => none
  | g :: gs =>
    match g.accept card with
    | some g2 => some (g2 :: gs)
    | none => (tryGoals card gs).map (g :: ·)

/-- One source cell of a `do_automoves` pass: an exposed joker goes to the
joker slot, an exposed number card within the safe rank goes to the first
accepting goal pile, anything else stays put. -/
def autoStep (safeRank : Nat) (cell : CardCell) (st : AutoState) : CardCell × AutoState :=
  match cell.top with
  | some .joker =>
    match st.joker.accept .joker with
    | some j2 => (cell.pop, { st with joker := j2, progress := true })
    | none => (cell, st)
  | some (.number s r) =>
    if r ≤ safeRank then
      match tryGoals (.number s r) st.goals with
      | some gs2 => (cell.pop, { st with goals := gs2, progress := true })
      | none => (cell, st)
    else (cell, st)
  | _ => (cell, st)

/-- A `do_automoves` pass over one list of source cells. -/
def autoPassCells (safeRank : Nat) : AutoState → List CardCell → List CardCell × AutoState
  | st, [] => ([], st)
  | st, c :: cs =>
    let r := autoStep safeRank c st
    let rest := autoPassCells safeRank r.2 cs
    (r.1 :: rest.1, rest.2)

/-- One full pass of `Board::do_automoves`: game cells first, then free
cells, exactly the Rust `chain` order. -/
def autoPass (safeRank : Nat) (b : Board) : Board × Bool :=
  let g := autoPassCells safeRank ⟨b.jokerCell, b.goalCells, false⟩ b.gameCells
  let f := autoPassCells safeRank g.2 b.freeCells
  (⟨f.2.joker, f.1, f.2.goals, g.1⟩, f.2.progress)

/-- Number of cards stored in a cell (a filled joker slot never feeds a
pass, so its weight is irrelevant; 0 keeps sums simple). -/
def cellSize : CardCell → Nat
  | .jokerCell _ => 0
  | .freeCell o => o.toList.length
  | .gameCell st => st.length
  | .goalCell o => o.toList.length

def cellsSize (l : List CardCell) : Nat := (l.map cellSize).sum

/-- Cards held in game and free cells: the quantity each successful
automove strictly decreases, hence the loop variant of `do_automoves`. -/
def Board.measureGF (b : Board) : Nat := cellsSize b.gameCells + cellsSize b.freeCells

theorem cellSize_pop_lt (c : CardCell) (h : c.top.isSome) : cellSize c.pop < cellSize c := by
  cases c with
  | jokerCell b => simp [CardCell.top] at h
  | freeCell o =>
    cases o with
    | none => simp [CardCell.top] at h
    | some c => simp [cellSize, CardCell.pop]
  | gameCell st =>
    cases st with
    | nil => simp [CardCell.top] at h
    | cons a as =>
      simp only [cellSize, CardCell.pop, List.length_dropLast, List.length_cons]
      omega
  | goalCell o =>
    cases o with
    | none => simp [CardCell.top] at h
    | some c => simp [cellSize, CardCell.pop]

theorem autoStep_progress_mono (sr : Nat) (c : CardCell) (st : AutoState)
    (h : st.progress = true) : (autoStep sr c st).2.progress = true := by
  unfold autoStep
  split <;> try exact h
  · split
    · rfl
    · exact h
  · split
    · split
      · rfl
      · exact h
    · exact h

theorem autoStep_moved_or_id (sr : Nat) (c : CardCell) (st : AutoState) :
    autoStep sr c st = (c, st) ∨ (autoStep sr c st).2.progress = true := by
  unfold autoStep
  split
  · split
    · right; rfl
    · left; rfl
  · split
    · split
      · right; rfl
      · left; rfl
    · left; rfl
  · left; rfl

theorem autoStep_of_progress_false (sr : Nat) (c : CardCell) (st : AutoState)
    (h : (autoStep sr c st).2.progress = false) : autoStep sr c st = (c, st) := by
  rcases autoStep_moved_or_id sr c st with h1 | h1
  · exact h1
  · rw [h1] at h
    exact absurd h (by simp)

theorem autoStep_size (sr : Nat) (c : CardCell) (st : AutoState) :
    cellSize (autoStep sr c st).1 ≤ cellSize c ∧
      ((autoStep sr c st).2.progress = true →
        st.progress = true ∨ cellSize (autoStep sr c st).1 < cellSize c) := by
  unfold autoStep
  split
  next heq =>
    split
    · refine ⟨Nat.le_of_lt ?_, fun _ => Or.inr ?_⟩ <;>
        exact cellSize_pop_lt c (by simp [heq])
    · exact ⟨Nat.le_refl _, fun h => Or.inl h⟩
  next s r heq =>
    split
    · split
      · refine ⟨Nat.le_of_lt ?_, fun _ => Or.inr ?_⟩ <;>
          exact cellSize_pop_lt c (by simp [heq])
      · exact ⟨Nat.le_refl _, fun h => Or.inl h⟩
    · exact ⟨Nat.le_refl _, fun h => Or.inl h⟩
  next => exact ⟨Nat.le_refl _, fun h => Or.inl h⟩

theorem autoPassCells_progress_mono (sr : Nat) (st : AutoState) (l : List CardCell)
    (h : st.progress = true) : (autoPassCells sr st l).2.progress = true := by
  induction l generalizing st with
  | nil => exact h
  | cons c cs ih =>
    simp only [autoPassCells]
    exact ih _ (autoStep_progress_mono sr c st h)

theorem autoPassCells_of_progress_false (sr : Nat) (st : AutoState) (l : List CardCell)
    (h : (autoPassCells sr st l).2.progress = false) :
    (autoPassCells sr st l).1 = l ∧ (autoPassCells sr st l).2 = st := by
  induction l generalizing st with
  | nil => exact ⟨rfl, rfl⟩
  | cons c cs ih =>
    simp only [autoPassCells] at h ⊢
    have hstep : (autoStep sr c st).2.progress = false := by
      by_contra hc
      rw [autoPassCells_progress_mono sr (autoStep sr c st).2 cs
        (eq_true_of_ne_false hc)] at h
      exact absurd h (by simp)
    rw [autoStep_of_progress_false sr c st hstep] at h ⊢
    have hr := ih st h
    refine ⟨?_, hr.2⟩
    show c :: (autoPassCells sr st cs).1 = c :: cs
    rw [hr.1]

theorem autoPassCells_size (sr : Nat) (st : AutoState) (l : List CardCell) :
    cellsSize (autoPassCells sr st l).1 ≤ cellsSize l ∧
      ((autoPassCells sr st l).2.progress = true →
        st.progress = true ∨ cellsSize (autoPassCells sr st l).1 < cellsSize l) := by
  induction l generalizing st with
  | nil => exact ⟨Nat.le_refl _, fun h => Or.inl h⟩
  | cons c cs ih =>
    simp only [autoPassCells, cellsSize, List.map_cons, List.sum_cons]
    have hstep := autoStep_size sr c st
    have hrest := ih (autoStep sr c st).2
    constructor
    · exact Nat.add_le_add hstep.1 hrest.1
    · intro hp
      rcases hrest.2 hp with hsp | hlt
      · rcases hstep.2 hsp with h0 | hcl
        · exact Or.inl h0
        · exact Or.inr (Nat.add_lt_add_of_lt_of_le hcl hrest.1)
      · exact Or.inr (Nat.add_lt_add_of_le_of_lt hstep.1 hlt)

theorem autoPass_progress_lt (sr : Nat) (b : Board) (h : (autoPass sr b).2 = true) :
    (autoPass sr b).1.measureGF < b.measureGF := by
  have h2 : (autoPassCells sr (autoPassCells sr ⟨b.jokerCell, b.goalCells, false⟩
      b.gameCells).2 b.freeCells).2.progress = true := h
  have hg := autoPassCells_size sr ⟨b.jokerCell, b.goalCells, false⟩ b.gameCells
  have hf := autoPassCells_size sr
    (autoPassCells sr ⟨b.jokerCell, b.goalCells, false⟩ b.gameCells).2 b.freeCells
  show cellsSize (autoPassCells sr ⟨b.jokerCell, b.goalCells, false⟩ b.gameCells).1 +
      cellsSize (autoPassCells sr (autoPassCells sr ⟨b.jokerCell, b.goalCells, false⟩
        b.gameCells).2 b.freeCells).1 <
    cellsSize b.gameCells + cellsSize b.freeCells
  rcases hf.2 h2 with hgp | hlt
  · rcases hg.2 hgp with h0 | hglt
    · exact absurd h0 (by simp)
    · exact Nat.add_lt_add_of_lt_of_le hglt hf.1
  · exact Nat.add_lt_add_of_le_of_lt hg.1 hlt

theorem autoPass_of_progress_false (sr : Nat) (b : Board) (h : (autoPass sr b).2 = false) :
    (autoPass sr b).1 = b := by
  have h2 : (autoPassCells sr (autoPassCells sr ⟨b.jokerCell, b.goalCells, false⟩
      b.gameCells).2 b.freeCells).2.progress = false := h
  have hgp : (autoPassCells sr ⟨b.jokerCell, b.goalCells, false⟩ b.gameCells).2.progress
      = false := by
    by_contra hc
    rw [autoPassCells_progress_mono sr _ b.freeCells (eq_true_of_ne_false hc)] at h2
    exact absurd h2 (by simp)
  have hg := autoPassCells_of_progress_false sr ⟨b.jokerCell, b.goalCells, false⟩
    b.gameCells hgp
  have hf := autoPassCells_of_progress_false sr
    (autoPassCells sr ⟨b.jokerCell, b.goalCells, false⟩ b.gameCells).2 b.freeCells h2
  show (⟨(autoPassCells sr (autoPassCells sr ⟨b.jokerCell, b.goalCells, false⟩
        b.gameCells).2 b.freeCells).2.joker,
      (autoPassCells sr (autoPassCells sr ⟨b.jokerCell, b.goalCells, false⟩
        b.gameCells).2 b.freeCells).1,
      (autoPassCells sr (autoPassCells sr ⟨b.jokerCell, b.goalCells, false⟩
        b.gameCells).2 b.freeCells).2.goals,
      (autoPassCells sr ⟨b.jokerCell, b.goalCells, false⟩ b.gameCells).1⟩ : Board) = b
  rw [hf.1, hf.2, hg.1, hg.2]

/-- The `while progress` loop of `Board::do_automoves`: run a pass, and if
it moved anything, recompute the safe rank from the new board and repeat. -/
def autoLoop (safeRank : Nat) (b : Board) : Board :=
  if h : (autoPass safeRank b).2 = true then
    autoLoop (autoPass safeRank b).1.autoSafeRank (autoPass safeRank b).1
  else (autoPass safeRank b).1
termination_by b.measureGF
decreasing_by exact autoPass_progress_lt safeRank b h

/-- `Board::do_automoves`. -/
def Board.doAutomoves (b : Board) : Board := autoLoop b.autoSafeRank b

theorem autoLoop_fix_aux (n : Nat) : ∀ b : Board, b.measureGF < n →
    autoPass (autoLoop b.autoSafeRank b).autoSafeRank (autoLoop b.autoSafeRank b) =
      (autoLoop b.autoSafeRank b, false) := by
  induction n with
  | zero => intro b h; omega
  | succ n ih =>
    intro b hb
    rw [autoLoop]
    by_cases h : (autoPass b.autoSafeRank b).2 = true
    · simp only [h, dite_true]
      exact ih _ (by
        have := autoPass_progress_lt b.autoSafeRank b h
        omega)
    · simp only [h, dite_false]
      have h2 : (autoPass b.autoSafeRank b).2 = false := by
        cases hh : (autoPass b.autoSafeRank b).2
        · rfl
        · exact absurd hh h
      have h1 := autoPass_of_progress_false b.autoSafeRank b h2
      rw [h1]
      exact Prod.ext h1 h2

/-- After `do_automoves`, a further pass at the recomputed safe rank moves
nothing. -/
theorem doAutomoves_fix (b : Board) :
    autoPass b.doAutomoves.autoSafeRank b.doAutomoves = (b.doAutomoves, false) :=
  autoLoop_fix_aux (b.measureGF + 1) b (Nat.lt_succ_self _)

/-- Claim C2: `do_automoves` is idempotent — applying it twice yields the
same board as applying it once, for every board. -/
theorem claim_C2_automove_idempotent (b : Board) :
    b.doAutomoves.doAutomoves = b.doAutomoves := by
  show autoLoop b.doAutomoves.autoSafeRank b.doAutomoves = b.doAutomoves
  rw [autoLoop, doAutomoves_fix b]
  simp

/-- The suit iteration order of `create_deck`. -/
def suitList : List Suit := [.black, .green, .red]

/-- `create_deck`: per suit, 4 dragons then the numbers 1–9; finally the
joker — 40 cards. -/
def createDeck : List Card :=
  (suitList.flatMap (fun s =>
    List.replicate 4 (Card.dragon s) ++ (List.range' 1 9).map (Card.number s))) ++ [.joker]

/-- `distribute`: chunk `l` into `n` columns of `ceil(|l| / n)` cards, the
Rust loop pushing element `i` into chunk `i / chunksize`.  Chunk `j` thus
holds elements `j*chunksize ..< (j+1)*chunksize`, written here as
`take`/`drop`; the `f32` ceiling arithmetic is exact for the deck sizes in
range. -/
def distribute (l : List Card) (n : Nat) : List (List Card) :=
  (List.range n).map (fun j =>
    (l.drop (j * ((l.length + n - 1) / n))).take ((l.length + n - 1) / n))

/-- `Board::deal_seeded`: shuffle the deck with the seeded RNG of the
external `rand` crate — modelled by taking the already-shuffled deck as
the argument — then build a board with the joker slot, free slots and goal
piles empty and the deck distributed over 8 columns. -/
def dealShuffled (shuffled : List Card) : Board :=
  { jokerCell := .jokerCell false
    freeCells := [.freeCell none, .freeCell none, .freeCell none]
    goalCells := [.goalCell none, .goalCell none, .goalCell none]
    gameCells := (distribute shuffled 8).map .gameCell }

/-- The cards a cell holds.  A goal pile stores only its top card but
logically holds every card of its suit up to the top rank; the multiset of
cards on a board expands it accordingly (a non-number goal top cannot
occur and counts as the single stored card). -/
def cellCards : CardCell → List Card
  | .jokerCell bj => if bj then [.joker] else []
  | .freeCell o => o.toList
  | .gameCell st => st
  | .goalCell none => []
  | .goalCell (some (.number s r)) => (List.range' 1 r).map (Card.number s)
  | .goalCell (some c) => [c]

def cellsCards (l : List CardCell) : List Card := l.flatMap cellCards

/-- The card multiset of a board (as a list; order is irrelevant, all
reasoning is up to permutation). -/
def Board.cards (b : Board) : List Card :=
  cellCards b.jokerCell ++ cellsCards b.freeCells ++ cellsCards b.goalCells ++
    cellsCards b.gameCells

/-- Suits whose four dragons are absent from the raw card list: each must
be accounted for by a `DragonStack`. -/
def missingDragonSuits (cs : List Card) : List Suit :=
  suitList.filter (fun s => cs.count (.dragon s) = 0)

/-- Expand every `DragonStack` into the four dragons of a fully-absent
suit: remove the sentinels and add the missing suits' dragons back. -/
def expandStacks (cs : List Card) : List Card :=
  cs.filter (fun c => c ≠ .dragonStack) ++
    (missingDragonSuits cs).flatMap (fun s => List.replicate 4 (Card.dragon s))

/-- The conservation invariant: the board's card multiset, counting each
`DragonStack` as the four dragons of one fully-absent suit, is exactly the
40-card deck. -/
def Board.fullDeck (b : Board) : Prop :=
  (expandStacks b.cards).Perm createDeck ∧
    b.cards.count .dragonStack = (missingDragonSuits b.cards).length

instance (b : Board) : Decidable b.fullDeck := by
  unfold Board.fullDeck
  infer_instance

def kindJoker : CardCell → Bool
  | .jokerCell _ => true
  | _ => false

def kindFree : CardCell → Bool
  | .freeCell _ => true
  | _ => false

def kindGoal : CardCell → Bool
  | .goalCell _ => true
  | _ => false

def kindGame : CardCell → Bool
  | .gameCell _ => true
  | _ => false

/-- The shape every board built by the Rust program has: each of the four
slots of the `Board` struct holds cells of its own kind (the cell arrays
are typed as generic `CardCell`s, but every constructor fills them
kind-correctly). -/
def Board.wellKinded (b : Board) : Bool :=
  kindJoker b.jokerCell && b.freeCells.all kindFree && b.goalCells.all kindGoal &&
    b.gameCells.all kindGame

theorem chunk_step (l : List Card) (m : Nat) :
    (l.drop m).take 5 ++ l.drop (m + 5) = l.drop m := by
  rw [← List.drop_drop]
  exact List.take_append_drop 5 (l.drop m)

theorem flatten_chunks_40 (l : List Card) (h : l.length = 40) :
    ((List.range 8).map (fun j => (l.drop (j * 5)).take 5)).flatten = l := by
  have hr : List.range 8 = [0, 1, 2, 3, 4, 5, 6, 7] := rfl
  rw [hr]
  simp only [List.map_cons, List.map_nil, List.flatten]
  norm_num
  have hnil : l.drop 40 = [] := List.drop_eq_nil_of_le (by omega)
  have c35 := chunk_step l 35
  rw [hnil, List.append_nil] at c35
  rw [c35, chunk_step l 30, chunk_step l 25, chunk_step l 20, chunk_step l 15,
    chunk_step l 10, chunk_step l 5]
  exact List.take_append_drop 5 l

/-- Claim C10: every seeded deal yields a board with the joker slot, the 3
free slots and the 3 goal piles empty, and 8 columns of exactly 5 cards
whose contents are, together, exactly the 40-card deck.  The `rand`-crate
shuffle is modelled by quantifying over every permutation of the deck. -/
theorem claim_C10_deal_shape (shuffled : List Card) (hperm : shuffled.Perm createDeck) :
    (dealShuffled shuffled).jokerCell = .jokerCell false ∧
    (dealShuffled shuffled).freeCells = [.freeCell none, .freeCell none, .freeCell none] ∧
    (dealShuffled shuffled).goalCells = [.goalCell none, .goalCell none, .goalCell none] ∧
    (dealShuffled shuffled).gameCells.length = 8 ∧
    (∀ c ∈ (dealShuffled shuffled).gameCells,
      kindGame c = true ∧ (cellCards c).length = 5) ∧
    (cellsCards (dealShuffled shuffled).gameCells).Perm createDeck := by
  have h40 : shuffled.length = 40 := by
    rw [hperm.length_eq]; rfl
  have hchunk : distribute shuffled 8 =
      (List.range 8).map (fun j => (shuffled.drop (j * 5)).take 5) := by
    unfold distribute
    rw [h40]
  refine ⟨rfl, rfl, rfl, ?_, ?_, ?_⟩
  · show ((distribute shuffled 8).map CardCell.gameCell).length = 8
    rw [hchunk]
    simp
  · intro c hc
    rw [show (dealShuffled shuffled).gameCells
        = (distribute shuffled 8).map CardCell.gameCell from rfl, hchunk] at hc
    simp only [List.map_map, List.mem_map, List.mem_range] at hc
    obtain ⟨j, hj, rfl⟩ := hc
    refine ⟨rfl, ?_⟩
    show ((shuffled.drop (j * 5)).take 5).length = 5
    rw [List.length_take, List.length_drop, h40]
    omega
  · show (cellsCards ((distribute shuffled 8).map CardCell.gameCell)).Perm createDeck
    have hcc : ∀ ls : List (List Card),
        cellsCards (ls.map CardCell.gameCell) = ls.flatten := by
      intro ls
      induction ls with
      | nil => rfl
      | cons a as ih =>
        simp only [List.map_cons, cellsCards, List.flatMap_cons, List.flatten_cons]
        exact congrArg (a ++ ·) ih
    rw [hcc, hchunk, flatten_chunks_40 shuffled h40]
    exact hperm

theorem count_one (x c : Card) : List.count x [c] = if x = c then 1 else 0 := by
  by_cases hx : x = c
  · subst hx
    simp
  · rw [if_neg hx]
    simp [List.count_cons, Ne.symm hx]

/-- A successful `accept` adds exactly the accepted card to the cell's
card multiset — except for the degenerate re-accept of a joker by an
already-filled joker slot, which the hypothesis rules out. -/
theorem count_cellCards_accept (cell cell' : CardCell) (card : Card)
    (h : cell.accept card = some cell')
    (hnj : ¬(cell = .jokerCell true ∧ card = .joker)) (x : Card) :
    (cellCards cell').count x = (cellCards cell).count x + (if x = card then 1 else 0) := by
  unfold CardCell.accept at h
  split at h
  · exact absurd h (by simp)
  next bj =>
    cases h
    have hbj : bj = false := by
      cases bj
      · rfl
      · exact absurd ⟨rfl, rfl⟩ hnj
    subst hbj
    show List.count x [Card.joker] = List.count x ([] : List Card) +
      (if x = Card.joker then 1 else 0)
    rw [count_one]
    simp
  next hns =>
    cases h
    show List.count x [card] = List.count x ([] : List Card) + (if x = card then 1 else 0)
    rw [count_one]
    simp
  next s =>
    cases h
    show List.count x [Card.number s 1] = List.count x ([] : List Card) +
      (if x = Card.number s 1 then 1 else 0)
    rw [count_one]
    simp
  next topSuit topRank s r =>
    split at h
    next hcond =>
      cases h
      obtain ⟨rfl, rfl⟩ := hcond
      simp only [cellCards, List.range'_concat, List.map_append, List.count_append,
        List.map_cons, List.map_nil]
      rw [count_one]
      have h1 : 1 + 1 * topRank = topRank + 1 := by omega
      rw [h1]
    · exact absurd h (by simp)
  · exact absurd h (by simp)
  next st hns =>
    unfold CardCell.acceptStack at h
    simp only at h
    split at h
    · split at h
      · split at h
        · cases h
          show List.count x (st ++ [card]) = List.count x st + (if x = card then 1 else 0)
          rw [List.count_append, count_one]
        · exact absurd h (by simp)
      · exact absurd h (by simp)
    · cases h
      show List.count x (st ++ [card]) = List.count x st + (if x = card then 1 else 0)
      rw [List.count_append, count_one]
  · exact absurd h (by simp)
/-- A defined `pop` (free or game cell) produces the total `pop` and the
receiver is never a goal pile holding a number card. -/
theorem popQ_sound (cell popped : CardCell) (h : cell.popQ = some popped) :
    popped = cell.pop ∧ ∀ s r, cell ≠ .goalCell (some (.number s r)) := by
  cases cell with
  | jokerCell bj => simp [CardCell.popQ] at h
  | freeCell o =>
    simp only [CardCell.popQ, Option.some.injEq] at h
    exact ⟨h.symm, by intro s r hc; cases hc⟩
  | gameCell st =>
    simp only [CardCell.popQ, Option.some.injEq] at h
    exact ⟨h.symm, by intro s r hc; cases hc⟩
  | goalCell o => simp [CardCell.popQ] at h

/-- Popping a cell with an exposed top removes exactly that card from the
cell's card multiset (for every cell except a goal pile topped by a number
card, whose stored top stands for a whole pile). -/
theorem count_cellCards_pop (cell : CardCell) (card : Card)
    (ht : cell.top = some card)
    (hng : ∀ s r, cell ≠ .goalCell (some (.number s r))) (x : Card) :
    (cellCards cell.pop).count x + (if x = card then 1 else 0)
      = (cellCards cell).count x := by
  cases cell with
  | jokerCell bj => simp [CardCell.top] at ht
  | freeCell o =>
    cases o with
    | none => simp [CardCell.top] at ht
    | some c =>
      have hc : c = card := by
        simpa [CardCell.top] using ht
      subst hc
      show List.count x ([] : List Card) + (if x = c then 1 else 0) = List.count x [c]
      rw [count_one]
      simp
  | gameCell st =>
    have hne : st ≠ [] := by
      intro hnil
      subst hnil
      simp [CardCell.top] at ht
    have hlast : st.getLast hne = card := by
      have h1 := List.getLast?_eq_getLast st hne
      rw [CardCell.top, h1] at ht
      exact Option.some.inj ht
    have hsplit : st.dropLast ++ [card] = st := by
      rw [← hlast]
      exact List.dropLast_append_getLast hne
    show List.count x st.dropLast + (if x = card then 1 else 0) = List.count x st
    conv_rhs => rw [← hsplit]
    rw [List.count_append, count_one]
  | goalCell o =>
    cases o with
    | none => simp [CardCell.top] at ht
    | some c =>
      have hc : c = card := by
        simpa [CardCell.top] using ht
      subst hc
      cases c with
      | number s r => exact absurd rfl (hng s r)
      | joker =>
        show List.count x ([] : List Card) + (if x = .joker then 1 else 0)
          = List.count x [Card.joker]
        rw [count_one]
        simp
      | dragon s =>
        show List.count x ([] : List Card) + (if x = .dragon s then 1 else 0)
          = List.count x [Card.dragon s]
        rw [count_one]
        simp
      | dragonStack =>
        show List.count x ([] : List Card) + (if x = .dragonStack then 1 else 0)
          = List.count x [Card.dragonStack]
        rw [count_one]
        simp

/-- An exposed joker is part of the cell's card multiset. -/
theorem joker_top_mem (cell : CardCell) (ht : cell.top = some .joker) :
    Card.joker ∈ cellCards cell := by
  cases cell with
  | jokerCell bj => simp [CardCell.top] at ht
  | freeCell o =>
    cases o with
    | none => simp [CardCell.top] at ht
    | some c =>
      have hc : c = .joker := by simpa [CardCell.top] using ht
      subst hc
      simp [cellCards]
  | gameCell st =>
    show Card.joker ∈ st
    have hne : st ≠ [] := by
      intro hnil
      subst hnil
      simp [CardCell.top] at ht
    have h1 := List.getLast?_eq_getLast st hne
    rw [CardCell.top, h1] at ht
    rw [← Option.some.inj ht]
    exact List.getLast_mem hne
  | goalCell o =>
    cases o with
    | none => simp [CardCell.top] at ht
    | some c =>
      have hc : c = .joker := by simpa [CardCell.top] using ht
      subst hc
      simp [cellCards]

/-- Replacing one cell of a list exchanges exactly its cards for the new
cell's cards in the list's card multiset. -/
theorem count_cellsCards_set (l : List CardCell) (i : Nat) (c : CardCell)
    (h : i < l.length) (x : Card) :
    (cellsCards (l.set i c)).count x + (cellCards (l.getD i junkCell)).count x
      = (cellsCards l).count x + (cellCards c).count x := by
  induction l generalizing i with
  | nil => simp at h
  | cons a as ih =>
    cases i with
    | zero =>
      show (cellsCards (c :: as)).count x + (cellCards a).count x
        = (cellsCards (a :: as)).count x + (cellCards c).count x
      show (cellCards c ++ cellsCards as).count x + (cellCards a).count x
        = (cellCards a ++ cellsCards as).count x + (cellCards c).count x
      simp only [List.count_append]
      omega
    | succ n =>
      have hn : n < as.length := by
        simpa using h
      have := ih n hn
      show (cellCards a ++ cellsCards (as.set n c)).count x
          + (cellCards (as.getD n junkCell)).count x
        = (cellCards a ++ cellsCards as).count x + (cellCards c).count x
      simp only [List.count_append]
      omega

/-- Valid index for a cell reference on a given board (out-of-range
access panics in Rust). -/
def inRange (b : Board) : CardCellIndex → Prop
  | .freeCellIndex n => n < b.freeCells.length
  | .goalCellIndex n => n < b.goalCells.length
  | .gameCellIndex n => n < b.gameCells.length

/-- Board-level version of `count_cellsCards_set`. -/
theorem count_cards_replaceCell (b : Board) (i : CardCellIndex) (c : CardCell)
    (h : inRange b i) (x : Card) :
    ((b.replaceCell i c).cards).count x + (cellCards (b.getCell i)).count x
      = (b.cards).count x + (cellCards c).count x := by
  cases i with
  | freeCellIndex n =>
    have := count_cellsCards_set b.freeCells n c h x
    simp only [Board.replaceCell, Board.getCell, Board.cards, List.count_append]
    simp only [Board.cards, List.count_append] at *
    omega
  | goalCellIndex n =>
    have := count_cellsCards_set b.goalCells n c h x
    simp only [Board.replaceCell, Board.getCell, Board.cards, List.count_append]
    simp only [Board.cards, List.count_append] at *
    omega
  | gameCellIndex n =>
    have := count_cellsCards_set b.gameCells n c h x
    simp only [Board.replaceCell, Board.getCell, Board.cards, List.count_append]
    simp only [Board.cards, List.count_append] at *
    omega

theorem chainUp_prefix (last : Card) (l : List Card) :
    ∃ suf, l = CardCell.chainUp last l ++ suf := by
  induction l generalizing last with
  | nil => exact ⟨[], rfl⟩
  | cons c cs ih =>
    unfold CardCell.chainUp
    split
    · obtain ⟨suf, hsuf⟩ := ih c
      exact ⟨suf, by rw [List.cons_append, ← hsuf]⟩
    · exact ⟨c :: cs, rfl⟩

/-- The run returned by `iter_stack` is a suffix of the column. -/
theorem iterStack_suffix (st : List Card) :
    ∃ pre, st = pre ++ (CardCell.gameCell st).iterStack := by
  cases hrev : st.reverse with
  | nil =>
    have hst : st = [] := by simpa using congrArg List.reverse hrev
    subst hst
    exact ⟨[], rfl⟩
  | cons t rest =>
    obtain ⟨suf, hsuf⟩ := chainUp_prefix t rest
    have hst : st = rest.reverse ++ [t] := by
      have := congrArg List.reverse hrev
      simpa using this
    have hit : (CardCell.gameCell st).iterStack = (t :: CardCell.chainUp t rest).reverse := by
      simp only [CardCell.iterStack]
      rw [hrev]
    refine ⟨suf.reverse, ?_⟩
    rw [hit, hst]
    conv_lhs => rw [hsuf]
    simp

theorem iterStack_ne_nil_game (cell : CardCell) (h : cell.iterStack ≠ []) :
    ∃ st, cell = .gameCell st ∧ st ≠ [] := by
  cases cell with
  | gameCell st =>
    refine ⟨st, rfl, ?_⟩
    intro hnil
    subst hnil
    exact h rfl
  | jokerCell bj => exact absurd rfl h
  | freeCell o => exact absurd rfl h
  | goalCell o => exact absurd rfl h

/-- The last `n` cards of the run are the last `n` cards of the column. -/
theorem iterStack_drop (st : List Card) (n : Nat)
    (hn : n ≤ (CardCell.gameCell st).iterStack.length) :
    (CardCell.gameCell st).iterStack.drop ((CardCell.gameCell st).iterStack.length - n)
      = st.drop (st.length - n) := by
  obtain ⟨pre, hpre⟩ := iterStack_suffix st
  generalize hg : (CardCell.gameCell st).iterStack = run at hpre hn ⊢
  subst hpre
  rw [List.length_append]
  have harith : pre.length + run.length - n = pre.length + (run.length - n) := by omega
  rw [harith, List.drop_append]

/-- A successful `accept_stack` appends the arriving cards to a game
cell. -/
theorem acceptStack_sound (cell cell2 : CardCell) (cards : List Card)
    (h : cell.acceptStack cards = some cell2) :
    ∃ st, cell = .gameCell st ∧ cell2 = .gameCell (st ++ cards) := by
  unfold CardCell.acceptStack at h
  split at h
  next st =>
    split at h
    · split at h
      · split at h
        · cases h
          exact ⟨st, rfl, rfl⟩
        · exact absurd h (by simp)
      · exact absurd h (by simp)
    · cases h
      exact ⟨st, rfl, rfl⟩
  · exact absurd h (by simp)

/-- `move_n_cards_by_idx` never creates or destroys a card: the resulting
board has the same card multiset. -/
theorem moveN_cards_count (b b2 : Board) (si di n : Nat)
    (h : b.moveNCardsByIdx si di n = some b2) (x : Card) :
    b2.cards.count x = b.cards.count x := by
  simp only [Board.moveNCardsByIdx] at h
  split at h
  · exact absurd h (by simp)
  next hcond =>
    push_neg at hcond
    obtain ⟨hn0, hlen⟩ := hcond
    split at h
    next newDest haccept =>
      cases h
      have hstne : (b.gameCells.getD si junkCell).iterStack ≠ [] := by
        intro hnil
        rw [hnil] at hlen
        simp at hlen
        omega
      obtain ⟨srcStack, hsrcEq, hsrcne⟩ := iterStack_ne_nil_game _ hstne
      have hsi : si < b.gameCells.length := by
        by_contra hge
        rw [List.getD_eq_default _ _ (by omega)] at hsrcEq
        simp [junkCell] at hsrcEq
      obtain ⟨destStack, hdestEq, hnewEq⟩ := acceptStack_sound _ _ _ haccept
      have hdi : di < (b.gameCells.set si
          ((b.gameCells.getD si junkCell).popN n)).length := by
        by_contra hge
        rw [List.getD_eq_default _ _ (by omega)] at hdestEq
        simp [junkCell] at hdestEq
      have h1 := count_cellsCards_set b.gameCells si
        ((b.gameCells.getD si junkCell).popN n) hsi x
      have h2 := count_cellsCards_set
        (b.gameCells.set si ((b.gameCells.getD si junkCell).popN n)) di newDest hdi x
      have hpop : (b.gameCells.getD si junkCell).popN n
          = .gameCell (srcStack.take (srcStack.length - n)) := by
        rw [hsrcEq]
        rfl
      have hlen2 : n ≤ (CardCell.gameCell srcStack).iterStack.length := by
        rw [hsrcEq] at hlen
        omega
      have hsub : (b.gameCells.getD si junkCell).iterStack.drop
            ((b.gameCells.getD si junkCell).iterStack.length - n)
          = srcStack.drop (srcStack.length - n) := by
        rw [hsrcEq]
        exact iterStack_drop srcStack n hlen2
      rw [hsub] at hnewEq
      have h3 : (srcStack.take (srcStack.length - n)).count x
          + (srcStack.drop (srcStack.length - n)).count x = srcStack.count x := by
        rw [← List.count_append, List.take_append_drop]
      rw [hpop] at h1 h2 hdestEq ⊢
      rw [hsrcEq] at h1
      rw [hdestEq] at h2
      rw [hnewEq] at h2 ⊢
      have hcc1 : (cellCards (CardCell.gameCell srcStack)).count x = srcStack.count x := rfl
      have hcc2 : (cellCards (CardCell.gameCell
          (srcStack.take (srcStack.length - n)))).count x
          = (srcStack.take (srcStack.length - n)).count x := rfl
      have hcc3 : (cellCards (CardCell.gameCell (destStack
          ++ srcStack.drop (srcStack.length - n)))).count x
          = destStack.count x + (srcStack.drop (srcStack.length - n)).count x := by
        show (destStack ++ srcStack.drop (srcStack.length - n)).count x = _
        rw [List.count_append]
      have hcc4 : (cellCards (CardCell.gameCell destStack)).count x
          = destStack.count x := rfl
      rw [hcc1, hcc2] at h1
      rw [hcc3, hcc4] at h2
      simp only [Board.cards, List.count_append]
      omega
    · exact absurd h (by simp)

theorem junkCell_accept (c : Card) : junkCell.accept c = none := by
  cases c <;> rfl

theorem accept_dragonStack (cell : CardCell) : cell.accept .dragonStack = none := by
  cases cell with
  | jokerCell bj => rfl
  | freeCell o => cases o <;> rfl
  | gameCell st => rfl
  | goalCell o =>
    cases o with
    | none => rfl
    | some c => cases c <;> rfl

theorem getCell_default (b : Board) (i : CardCellIndex) (h : ¬ inRange b i) :
    b.getCell i = junkCell := by
  cases i with
  | freeCellIndex n =>
    simp only [inRange, not_lt] at h
    exact List.getD_eq_default _ _ h
  | goalCellIndex n =>
    simp only [inRange, not_lt] at h
    exact List.getD_eq_default _ _ h
  | gameCellIndex n =>
    simp only [inRange, not_lt] at h
    exact List.getD_eq_default _ _ h

/-- On a well-kinded board no addressable cell is the joker slot. -/
theorem getCell_not_jokerCell (b : Board) (i : CardCellIndex)
    (hw : b.wellKinded = true) (hr : inRange b i) (bj : Bool) :
    b.getCell i ≠ .jokerCell bj := by
  simp only [Board.wellKinded, Bool.and_eq_true, List.all_eq_true] at hw
  obtain ⟨⟨⟨hj, hf⟩, hgo⟩, hga⟩ := hw
  intro hc
  cases i with
  | freeCellIndex n =>
    have hmem : b.freeCells.getD n junkCell ∈ b.freeCells := by
      rw [List.getD_eq_getElem?_getD]
      rw [List.getElem?_eq_getElem hr]
      exact List.getElem_mem hr
    have := hf _ hmem
    rw [show b.freeCells.getD n junkCell = b.getCell (.freeCellIndex n) from rfl, hc] at this
    simp [kindFree] at this
  | goalCellIndex n =>
    have hmem : b.goalCells.getD n junkCell ∈ b.goalCells := by
      rw [List.getD_eq_getElem?_getD]
      rw [List.getElem?_eq_getElem hr]
      exact List.getElem_mem hr
    have := hgo _ hmem
    rw [show b.goalCells.getD n junkCell = b.getCell (.goalCellIndex n) from rfl, hc] at this
    simp [kindGoal] at this
  | gameCellIndex n =>
    have hmem : b.gameCells.getD n junkCell ∈ b.gameCells := by
      rw [List.getD_eq_getElem?_getD]
      rw [List.getElem?_eq_getElem hr]
      exact List.getElem_mem hr
    have := hga _ hmem
    rw [show b.gameCells.getD n junkCell = b.getCell (.gameCellIndex n) from rfl, hc] at this
    simp [kindGame] at this

theorem inRange_replaceCell (b : Board) (i j : CardCellIndex) (c : CardCell)
    (h : inRange b i) : inRange (b.replaceCell j c) i := by
  cases i <;> cases j <;> simpa [inRange, Board.replaceCell] using h

theorem getCell_replaceCell_ne (b : Board) (i j : CardCellIndex) (c : CardCell)
    (hne : i ≠ j) : (b.replaceCell j c).getCell i = b.getCell i := by
  cases i with
  | freeCellIndex n =>
    cases j with
    | freeCellIndex m =>
      have hnm : m ≠ n := by
        intro hc
        exact hne (by rw [hc])
      simp only [Board.replaceCell, Board.getCell]
      rw [List.getD_eq_getElem?_getD, List.getD_eq_getElem?_getD, List.getElem?_set_ne hnm]
    | goalCellIndex m => rfl
    | gameCellIndex m => rfl
  | goalCellIndex n =>
    cases j with
    | freeCellIndex m => rfl
    | goalCellIndex m =>
      have hnm : m ≠ n := by
        intro hc
        exact hne (by rw [hc])
      simp only [Board.replaceCell, Board.getCell]
      rw [List.getD_eq_getElem?_getD, List.getD_eq_getElem?_getD, List.getElem?_set_ne hnm]
    | gameCellIndex m => rfl
  | gameCellIndex n =>
    cases j with
    | freeCellIndex m => rfl
    | goalCellIndex m => rfl
    | gameCellIndex m =>
      have hnm : m ≠ n := by
        intro hc
        exact hne (by rw [hc])
      simp only [Board.replaceCell, Board.getCell]
      rw [List.getD_eq_getElem?_getD, List.getD_eq_getElem?_getD, List.getElem?_set_ne hnm]

/-- `move_number_card_stack` preserves the card multiset. -/
theorem moveNumberCardStack_count (b b2 : Board) (si di : Nat)
    (h : b.moveNumberCardStack si di = some b2) (x : Card) :
    b2.cards.count x = b.cards.count x := by
  unfold Board.moveNumberCardStack at h
  split at h
  · split at h
    · exact moveN_cards_count b b2 si di _ h x
    · exact absurd h (by simp)
  · exact absurd h (by simp)

/-- A successful `move_stack` preserves the card multiset (on well-kinded
boards; the Rust `Board` struct only ever holds kind-correct cells). -/
theorem moveStack_cards_count (b b2 : Board) (s d : CardCellIndex)
    (hw : b.wellKinded = true)
    (h : b.moveStack s d = some (.ok b2)) (x : Card) :
    b2.cards.count x = b.cards.count x := by
  simp only [Board.moveStack] at h
  split at h
  · simp at h
  next hsd =>
    split at h
    next r hr =>
      -- the game-cell-pair special case produced a result
      rw [Option.some.injEq] at h
      subst h
      split at hr
      next sIdx dIdx =>
        split at hr
        · split at hr
          next board hboard =>
            rw [Option.some.injEq, Except.ok.injEq] at hr
            subst hr
            exact moveNumberCardStack_count b board sIdx dIdx hboard x
          next hnone =>
            rw [Option.some.injEq] at hr
            exact absurd hr.symm (by simp)
        · split at hr
          · rw [Option.some.injEq] at hr
            exact absurd hr.symm (by simp)
          · exact absurd hr (by simp)
      · exact absurd hr (by simp)
    next hr =>
      -- single-card path
      split at h
      · simp at h
      next sourceCard htop =>
        split at h
        · simp at h
        next newDest haccept =>
          split at h
          · simp at h
          next popped hpop =>
            rw [Option.some.injEq, Except.ok.injEq] at h
            subst h
            have hrs : inRange b s := by
              by_contra hc
              rw [getCell_default b s hc] at htop
              have hsc : sourceCard = .dragonStack := by
                rw [show junkCell.top = some .dragonStack from rfl] at htop
                exact (Option.some.inj htop).symm
              subst hsc
              rw [accept_dragonStack] at haccept
              exact absurd haccept (by simp)
            have hrd : inRange b d := by
              by_contra hc
              rw [getCell_default b d hc, junkCell_accept] at haccept
              exact absurd haccept (by simp)
            obtain ⟨hpe, hng⟩ := popQ_sound _ _ hpop
            have hcd := count_cards_replaceCell b d newDest hrd x
            have hcs := count_cards_replaceCell (b.replaceCell d newDest) s popped
              (inRange_replaceCell b s d newDest hrs) x
            rw [getCell_replaceCell_ne b s d newDest hsd] at hcs
            have haccCount := count_cellCards_accept (b.getCell d) newDest sourceCard
              haccept (by
                rintro ⟨hjc, -⟩
                exact getCell_not_jokerCell b d hw hrd true hjc) x
            have hpopCount := count_cellCards_pop (b.getCell s) sourceCard htop hng x
            rw [← hpe] at hpopCount
            omega

/-- Placing a card on the first accepting goal pile adds exactly that card
to the piles' card multiset (the card offered is never the joker). -/
theorem tryGoals_count (card : Card) (goals goals2 : List CardCell)
    (h : tryGoals card goals = some goals2) (hcj : card ≠ .joker) (x : Card) :
    (cellsCards goals2).count x
      = (cellsCards goals).count x + (if x = card then 1 else 0) := by
  induction goals generalizing goals2 with
  | nil => simp [tryGoals] at h
  | cons g gs ih =>
    simp only [tryGoals] at h
    split at h
    next g2 hacc =>
      cases h
      have hc := count_cellCards_accept g g2 card hacc
        (by rintro ⟨-, hcard⟩; exact hcj hcard) x
      show (cellCards g2 ++ cellsCards gs).count x
        = (cellCards g ++ cellsCards gs).count x + _
      simp only [List.count_append]
      omega
    next hacc =>
      cases hm : tryGoals card gs with
      | none =>
        rw [hm] at h
        simp at h
      | some gs2 =>
        rw [hm] at h
        have h2 : g :: gs2 = goals2 := by simpa using h
        subst h2
        have hc := ih gs2 hm
        show (cellCards g ++ cellsCards gs2).count x
          = (cellCards g ++ cellsCards gs).count x + _
        simp only [List.count_append]
        omega

theorem kind_no_goal_number (c : CardCell) (hk : (kindFree c || kindGame c) = true) :
    ∀ s r, c ≠ .goalCell (some (.number s r)) := by
  cases c <;> simp [kindFree, kindGame] at hk ⊢

theorem top_dragon_no_goal_number (c : CardCell) (s : Suit)
    (ht : c.top = some (.dragon s)) :
    ∀ s2 r2, c ≠ .goalCell (some (.number s2 r2)) := by
  intro s2 r2 hc
  subst hc
  simp [CardCell.top] at ht

/-- One automove step preserves the combined card multiset of the scanned
cell, the joker slot and the goal piles (given that a joker cannot sit in
both the joker slot and the scanned cell). -/
theorem autoStep_count (sr : Nat) (c : CardCell) (st : AutoState) (x : Card)
    (hk : (kindFree c || kindGame c) = true)
    (hjoker : ¬(st.joker = .jokerCell true ∧ c.top = some .joker)) :
    (cellCards (autoStep sr c st).1).count x
      + (cellCards (autoStep sr c st).2.joker).count x
      + (cellsCards (autoStep sr c st).2.goals).count x
    = (cellCards c).count x + (cellCards st.joker).count x
      + (cellsCards st.goals).count x := by
  unfold autoStep
  split
  next htop =>
    split
    next j2 hacc =>
      have haccC := count_cellCards_accept st.joker j2 .joker hacc
        (by rintro ⟨hj, -⟩; exact hjoker ⟨hj, htop⟩) x
      have hpopC := count_cellCards_pop c .joker htop (kind_no_goal_number c hk) x
      show (cellCards c.pop).count x + (cellCards j2).count x
        + (cellsCards st.goals).count x = _
      omega
    · rfl
  next s r htop =>
    split
    · split
      next gs2 hg =>
        have htg := tryGoals_count _ _ _ hg (by simp) x
        have hpopC := count_cellCards_pop c _ htop (kind_no_goal_number c hk) x
        show (cellCards c.pop).count x + (cellCards st.joker).count x
          + (cellsCards gs2).count x = _
        omega
      · rfl
    · rfl
  · rfl

/-- A pass over a list of source cells preserves the combined card
multiset, as long as at most one joker exists among the involved cells. -/
theorem autoPassCells_count (sr : Nat) (st : AutoState) (l : List CardCell)
    (hk : l.all (fun c => kindFree c || kindGame c) = true)
    (hj : (cellsCards l).count .joker + (cellCards st.joker).count .joker
      + (cellsCards st.goals).count .joker ≤ 1) (x : Card) :
    (cellsCards (autoPassCells sr st l).1).count x
      + (cellCards (autoPassCells sr st l).2.joker).count x
      + (cellsCards (autoPassCells sr st l).2.goals).count x
    = (cellsCards l).count x + (cellCards st.joker).count x
      + (cellsCards st.goals).count x := by
  induction l generalizing st with
  | nil => rfl
  | cons c cs ih =>
    simp only [List.all_cons, Bool.and_eq_true] at hk
    obtain ⟨hkc, hkcs⟩ := hk
    have hsplit : (cellsCards (c :: cs)).count Card.joker
        = (cellCards c).count .joker + (cellsCards cs).count .joker := by
      show (cellCards c ++ cellsCards cs).count Card.joker = _
      rw [List.count_append]
    have hexcl : ¬(st.joker = .jokerCell true ∧ c.top = some .joker) := by
      rintro ⟨hjc, htopj⟩
      have h1 : 1 ≤ (cellCards c).count .joker :=
        List.count_pos_iff.mpr (joker_top_mem c htopj)
      have h2 : (cellCards st.joker).count Card.joker = 1 := by
        rw [hjc]
        rfl
      rw [hsplit] at hj
      omega
    have hstep := autoStep_count sr c st x hkc hexcl
    have hstepJ := autoStep_count sr c st .joker hkc hexcl
    have hinv : (cellsCards cs).count .joker
        + (cellCards (autoStep sr c st).2.joker).count .joker
        + (cellsCards (autoStep sr c st).2.goals).count .joker ≤ 1 := by
      rw [hsplit] at hj
      omega
    have hrest := ih (autoStep sr c st).2 hkcs hinv
    simp only [autoPassCells]
    have hs1 : (cellsCards ((autoStep sr c st).1
        :: (autoPassCells sr (autoStep sr c st).2 cs).1)).count x
        = (cellCards (autoStep sr c st).1).count x
          + (cellsCards (autoPassCells sr (autoStep sr c st).2 cs).1).count x := by
      show (cellCards _ ++ cellsCards _).count x = _
      rw [List.count_append]
    have hs2 : (cellsCards (c :: cs)).count x
        = (cellCards c).count x + (cellsCards cs).count x := by
      show (cellCards c ++ cellsCards cs).count x = _
      rw [List.count_append]
    rw [hs1, hs2]
    omega

/-- `accept` never changes the kind of a cell. -/
theorem accept_kind (cell cell2 : CardCell) (card : Card)
    (h : cell.accept card = some cell2) :
    kindJoker cell2 = kindJoker cell ∧ kindFree cell2 = kindFree cell ∧
      kindGoal cell2 = kindGoal cell ∧ kindGame cell2 = kindGame cell := by
  unfold CardCell.accept at h
  split at h
  · exact absurd h (by simp)
  · cases h
    exact ⟨rfl, rfl, rfl, rfl⟩
  · cases h
    exact ⟨rfl, rfl, rfl, rfl⟩
  · cases h
    exact ⟨rfl, rfl, rfl, rfl⟩
  · split at h
    · cases h
      exact ⟨rfl, rfl, rfl, rfl⟩
    · exact absurd h (by simp)
  · exact absurd h (by simp)
  next st c =>
    obtain ⟨st2, hst2, hcell2⟩ := acceptStack_sound _ _ _ h
    cases hst2
    subst hcell2
    exact ⟨rfl, rfl, rfl, rfl⟩
  · exact absurd h (by simp)

theorem pop_kind (cell : CardCell) :
    kindJoker cell.pop = kindJoker cell ∧ kindFree cell.pop = kindFree cell ∧
      kindGoal cell.pop = kindGoal cell ∧ kindGame cell.pop = kindGame cell := by
  cases cell <;> exact ⟨rfl, rfl, rfl, rfl⟩

theorem tryGoals_kind (card : Card) (goals goals2 : List CardCell)
    (h : tryGoals card goals = some goals2)
    (hk : goals.all kindGoal = true) : goals2.all kindGoal = true := by
  induction goals generalizing goals2 with
  | nil => simp [tryGoals] at h
  | cons g gs ih =>
    simp only [List.all_cons, Bool.and_eq_true] at hk
    simp only [tryGoals] at h
    split at h
    next g2 hacc =>
      cases h
      simp only [List.all_cons, Bool.and_eq_true]
      exact ⟨by rw [(accept_kind _ _ _ hacc).2.2.1]; exact hk.1, hk.2⟩
    next =>
      cases hm : tryGoals card gs with
      | none =>
        rw [hm] at h
        simp at h
      | some gs2 =>
        rw [hm] at h
        have h2 : g :: gs2 = goals2 := by simpa using h
        subst h2
        simp only [List.all_cons, Bool.and_eq_true]
        exact ⟨hk.1, ih gs2 hm hk.2⟩

theorem autoStep_kind (sr : Nat) (c : CardCell) (st : AutoState)
    (hk : (kindFree c || kindGame c) = true)
    (hkj : kindJoker st.joker = true) (hkg : st.goals.all kindGoal = true) :
    (kindFree (autoStep sr c st).1 || kindGame (autoStep sr c st).1) = true ∧
      kindJoker (autoStep sr c st).2.joker = true ∧
      (autoStep sr c st).2.goals.all kindGoal = true := by
  unfold autoStep
  split
  next htop =>
    split
    next j2 hacc =>
      refine ⟨?_, ?_, hkg⟩
      · obtain ⟨h1, h2, h3, h4⟩ := pop_kind c
        rw [show ((c.pop, { st with joker := j2, progress := true }).1) = c.pop from rfl,
          h2, h4]
        exact hk
      · show kindJoker j2 = true
        rw [(accept_kind _ _ _ hacc).1]
        exact hkj
    · exact ⟨hk, hkj, hkg⟩
  next s r htop =>
    split
    · split
      next gs2 hg =>
        refine ⟨?_, hkj, tryGoals_kind _ _ _ hg hkg⟩
        obtain ⟨h1, h2, h3, h4⟩ := pop_kind c
        rw [show ((c.pop, { st with goals := gs2, progress := true }).1) = c.pop from rfl,
          h2, h4]
        exact hk
      · exact ⟨hk, hkj, hkg⟩
    · exact ⟨hk, hkj, hkg⟩
  · exact ⟨hk, hkj, hkg⟩

theorem autoStep_fst_cases (sr : Nat) (c : CardCell) (st : AutoState) :
    (autoStep sr c st).1 = c ∨ (autoStep sr c st).1 = c.pop := by
  unfold autoStep
  split
  · split
    · right; rfl
    · left; rfl
  · split
    · split
      · right; rfl
      · left; rfl
    · left; rfl
  · left; rfl

/-- Any cell-kind predicate stable under `pop` is preserved across a pass. -/
theorem autoPassCells_all_kind (p : CardCell → Bool) (hp : ∀ c, p c.pop = p c)
    (sr : Nat) (st : AutoState) (l : List CardCell) (hl : l.all p = true) :
    (autoPassCells sr st l).1.all p = true := by
  induction l generalizing st with
  | nil => rfl
  | cons c cs ih =>
    simp only [List.all_cons, Bool.and_eq_true] at hl
    simp only [autoPassCells, List.all_cons, Bool.and_eq_true]
    constructor
    · rcases autoStep_fst_cases sr c st with hc | hc
      · rw [hc]
        exact hl.1
      · rw [hc, hp]
        exact hl.1
    · exact ih _ hl.2

theorem autoPassCells_kind (sr : Nat) (st : AutoState) (l : List CardCell)
    (hk : l.all (fun c => kindFree c || kindGame c) = true)
    (hkj : kindJoker st.joker = true) (hkg : st.goals.all kindGoal = true) :
    (autoPassCells sr st l).1.all (fun c => kindFree c || kindGame c) = true ∧
      kindJoker (autoPassCells sr st l).2.joker = true ∧
      (autoPassCells sr st l).2.goals.all kindGoal = true := by
  induction l generalizing st with
  | nil => exact ⟨rfl, hkj, hkg⟩
  | cons c cs ih =>
    simp only [List.all_cons, Bool.and_eq_true] at hk
    obtain ⟨hs1, hs2, hs3⟩ := autoStep_kind sr c st hk.1 hkj hkg
    obtain ⟨hr1, hr2, hr3⟩ := ih (autoStep sr c st).2 hk.2 hs2 hs3
    refine ⟨?_, hr2, hr3⟩
    show ((autoStep sr c st).1 :: (autoPassCells sr (autoStep sr c st).2 cs).1).all _ = true
    simp only [List.all_cons, Bool.and_eq_true]
    exact ⟨hs1, hr1⟩

/-- One full `do_automoves` pass preserves the board's card multiset. -/
theorem autoPass_count (sr : Nat) (b : Board) (hw : b.wellKinded = true)
    (hj : b.cards.count .joker ≤ 1) (x : Card) :
    (autoPass sr b).1.cards.count x = b.cards.count x := by
  simp only [Board.wellKinded, Bool.and_eq_true, List.all_eq_true] at hw
  obtain ⟨⟨⟨hwj, hwf⟩, hwgo⟩, hwga⟩ := hw
  have hkga : b.gameCells.all (fun c => kindFree c || kindGame c) = true := by
    rw [List.all_eq_true]
    intro c hc
    rw [hwga c hc]
    simp
  have hkfr : b.freeCells.all (fun c => kindFree c || kindGame c) = true := by
    rw [List.all_eq_true]
    intro c hc
    rw [hwf c hc]
    simp
  have hjall : (cellCards b.jokerCell).count Card.joker
      + (cellsCards b.freeCells).count Card.joker
      + (cellsCards b.goalCells).count Card.joker
      + (cellsCards b.gameCells).count Card.joker ≤ 1 := by
    have : b.cards.count Card.joker
        = (cellCards b.jokerCell).count Card.joker
          + (cellsCards b.freeCells).count Card.joker
          + (cellsCards b.goalCells).count Card.joker
          + (cellsCards b.gameCells).count Card.joker := by
      show (cellCards b.jokerCell ++ cellsCards b.freeCells ++ cellsCards b.goalCells
        ++ cellsCards b.gameCells).count Card.joker = _
      simp only [List.count_append]
    omega
  have hg1 : (cellsCards b.gameCells).count Card.joker
      + (cellCards (⟨b.jokerCell, b.goalCells, false⟩ : AutoState).joker).count Card.joker
      + (cellsCards (⟨b.jokerCell, b.goalCells, false⟩ : AutoState).goals).count Card.joker
      ≤ 1 := by
    show (cellsCards b.gameCells).count Card.joker
      + (cellCards b.jokerCell).count Card.joker
      + (cellsCards b.goalCells).count Card.joker ≤ 1
    omega
  have hsj : (cellCards (⟨b.jokerCell, b.goalCells, false⟩ : AutoState).joker)
      = cellCards b.jokerCell := rfl
  have hsg : (cellsCards (⟨b.jokerCell, b.goalCells, false⟩ : AutoState).goals)
      = cellsCards b.goalCells := rfl
  have hgx := autoPassCells_count sr ⟨b.jokerCell, b.goalCells, false⟩ b.gameCells
    hkga hg1 x
  have hgj := autoPassCells_count sr ⟨b.jokerCell, b.goalCells, false⟩ b.gameCells
    hkga hg1 Card.joker
  rw [hsj, hsg] at hgx hgj
  have hf1 : (cellsCards b.freeCells).count Card.joker
      + (cellCards (autoPassCells sr ⟨b.jokerCell, b.goalCells, false⟩
          b.gameCells).2.joker).count Card.joker
      + (cellsCards (autoPassCells sr ⟨b.jokerCell, b.goalCells, false⟩
          b.gameCells).2.goals).count Card.joker ≤ 1 := by
    have hb : (cellCards (⟨b.jokerCell, b.goalCells, false⟩ : AutoState).joker).count
        Card.joker = (cellCards b.jokerCell).count Card.joker := rfl
    have hb2 : (cellsCards (⟨b.jokerCell, b.goalCells, false⟩ : AutoState).goals).count
        Card.joker = (cellsCards b.goalCells).count Card.joker := rfl
    omega
  have hfx := autoPassCells_count sr
    (autoPassCells sr ⟨b.jokerCell, b.goalCells, false⟩ b.gameCells).2 b.freeCells
    hkfr hf1 x
  have hbx : b.cards.count x
      = (cellCards b.jokerCell).count x + (cellsCards b.freeCells).count x
        + (cellsCards b.goalCells).count x + (cellsCards b.gameCells).count x := by
    show (cellCards b.jokerCell ++ cellsCards b.freeCells ++ cellsCards b.goalCells
      ++ cellsCards b.gameCells).count x = _
    simp only [List.count_append]
  have hres : (autoPass sr b).1.cards
      = cellCards (autoPassCells sr
            (autoPassCells sr ⟨b.jokerCell, b.goalCells, false⟩ b.gameCells).2
            b.freeCells).2.joker
        ++ cellsCards (autoPassCells sr
            (autoPassCells sr ⟨b.jokerCell, b.goalCells, false⟩ b.gameCells).2
            b.freeCells).1
        ++ cellsCards (autoPassCells sr
            (autoPassCells sr ⟨b.jokerCell, b.goalCells, false⟩ b.gameCells).2
            b.freeCells).2.goals
        ++ cellsCards (autoPassCells sr ⟨b.jokerCell, b.goalCells, false⟩
            b.gameCells).1 := rfl
  rw [hres]
  simp only [List.count_append]
  omega

/-- One full pass keeps the board well-kinded. -/
theorem autoPass_wellKinded (sr : Nat) (b : Board) (hw : b.wellKinded = true) :
    (autoPass sr b).1.wellKinded = true := by
  simp only [Board.wellKinded, Bool.and_eq_true, List.all_eq_true] at hw
  obtain ⟨⟨⟨hwj, hwf⟩, hwgo⟩, hwga⟩ := hw
  have hkga : b.gameCells.all (fun c => kindFree c || kindGame c) = true := by
    rw [List.all_eq_true]
    intro c hc
    rw [hwga c hc]
    simp
  have hkfr : b.freeCells.all (fun c => kindFree c || kindGame c) = true := by
    rw [List.all_eq_true]
    intro c hc
    rw [hwf c hc]
    simp
  have hkgo : b.goalCells.all kindGoal = true := by
    rw [List.all_eq_true]
    exact hwgo
  obtain ⟨hg1, hg2, hg3⟩ := autoPassCells_kind sr ⟨b.jokerCell, b.goalCells, false⟩
    b.gameCells hkga hwj hkgo
  obtain ⟨hf1, hf2, hf3⟩ := autoPassCells_kind sr
    (autoPassCells sr ⟨b.jokerCell, b.goalCells, false⟩ b.gameCells).2 b.freeCells
    hkfr hg2 hg3
  show (kindJoker _ && List.all _ kindFree && List.all _ kindGoal
    && List.all _ kindGame) = true
  simp only [Bool.and_eq_true]
  refine ⟨⟨⟨hf2, ?_⟩, hf3⟩, ?_⟩
  · exact autoPassCells_all_kind kindFree (fun c => (pop_kind c).2.1) sr _ b.freeCells
      (by rw [List.all_eq_true]; exact hwf)
  · exact autoPassCells_all_kind kindGame (fun c => (pop_kind c).2.2.2) sr _ b.gameCells
      (by rw [List.all_eq_true]; exact hwga)

theorem autoLoop_count_aux (n : Nat) : ∀ (b : Board) (sr : Nat),
    b.measureGF < n → b.wellKinded = true → b.cards.count .joker ≤ 1 →
    ∀ x, (autoLoop sr b).cards.count x = b.cards.count x := by
  induction n with
  | zero =>
    intro b sr h
    omega
  | succ n ih =>
    intro b sr hb hw hj x
    rw [autoLoop]
    by_cases hp : (autoPass sr b).2 = true
    · rw [dif_pos hp]
      have hcount := autoPass_count sr b hw hj
      have hw2 := autoPass_wellKinded sr b hw
      have hj2 : (autoPass sr b).1.cards.count .joker ≤ 1 := by
        rw [hcount]
        exact hj
      have hm := autoPass_progress_lt sr b hp
      rw [ih (autoPass sr b).1 _ (by omega) hw2 hj2 x]
      exact hcount x
    · rw [dif_neg hp]
      exact autoPass_count sr b hw hj x

/-- `do_automoves` preserves the card multiset of any well-kinded board
holding at most one joker. -/
theorem doAutomoves_cards_count (b : Board) (hw : b.wellKinded = true)
    (hj : b.cards.count .joker ≤ 1) (x : Card) :
    b.doAutomoves.cards.count x = b.cards.count x :=
  autoLoop_count_aux (b.measureGF + 1) b b.autoSafeRank (Nat.lt_succ_self _) hw hj x

theorem count_flatMap_dragons (ss : List Suit) (x : Card) :
    (ss.flatMap (fun s => List.replicate 4 (Card.dragon s))).count x
      = 4 * ss.countP (fun s => decide (x = Card.dragon s)) := by
  induction ss with
  | nil => rfl
  | cons s ss ih =>
    simp only [List.flatMap_cons, List.count_append, ih, List.countP_cons]
    by_cases hx : x = Card.dragon s
    · rw [List.count_replicate]
      rw [if_pos (by rw [hx]; exact beq_self_eq_true _), if_pos (by simp [hx])]
      ring
    · rw [List.count_replicate]
      rw [if_neg (by simp; intro hc; exact hx hc.symm), if_neg (by simp [hx])]
      ring

/-- Count of a card in the expanded (DragonStack-resolved) multiset. -/
theorem count_expandStacks (cs : List Card) (x : Card) :
    (expandStacks cs).count x
      = (if x = .dragonStack then 0 else cs.count x)
        + 4 * ((missingDragonSuits cs).countP (fun s => decide (x = Card.dragon s))) := by
  unfold expandStacks
  rw [List.count_append, count_flatMap_dragons]
  by_cases hx : x = Card.dragonStack
  · rw [if_pos hx]
    have h0 : (cs.filter (fun c => c ≠ Card.dragonStack)).count x = 0 := by
      rw [List.count_eq_zero]
      intro hmem
      rw [List.mem_filter] at hmem
      rw [hx] at hmem
      simp at hmem
    omega
  · rw [if_neg hx]
    rw [List.count_filter (by simpa using hx)]

theorem countP_missing_dragon (cs : List Card) (s0 : Suit) :
    (missingDragonSuits cs).countP (fun s => decide (Card.dragon s0 = Card.dragon s))
      = if cs.count (.dragon s0) = 0 then 1 else 0 := by
  unfold missingDragonSuits
  cases s0 <;>
    by_cases h0 : cs.count (.dragon .black) = 0 <;>
    by_cases h1 : cs.count (.dragon .green) = 0 <;>
    by_cases h2 : cs.count (.dragon .red) = 0 <;>
    simp [suitList, List.countP_cons, List.filter, h0, h1, h2]

theorem countP_missing_other (cs : List Card) (x : Card) (hx : ∀ s, x ≠ Card.dragon s) :
    (missingDragonSuits cs).countP (fun s => decide (x = Card.dragon s)) = 0 := by
  rw [List.countP_eq_zero]
  intro s hs
  simp [hx s]

/-- Two boards with identical card counts satisfy `fullDeck` together. -/
theorem fullDeck_of_count_eq (b b2 : Board)
    (hc : ∀ x, b2.cards.count x = b.cards.count x) (hf : b.fullDeck) : b2.fullDeck := by
  have hperm : b2.cards.Perm b.cards := List.perm_iff_count.mpr hc
  have hm : missingDragonSuits b2.cards = missingDragonSuits b.cards := by
    unfold missingDragonSuits
    exact List.filter_congr (fun s _ => by rw [hperm.count_eq])
  obtain ⟨hf1, hf2⟩ := hf
  constructor
  · refine List.Perm.trans ?_ hf1
    unfold expandStacks
    rw [hm]
    exact List.Perm.append (hperm.filter _) (List.Perm.refl _)
  · rw [hperm.count_eq, hm]
    exact hf2

/-- A full-deck board holds exactly one joker. -/
theorem fullDeck_count_joker (b : Board) (hf : b.fullDeck) :
    b.cards.count .joker = 1 := by
  have h1 := hf.1.count_eq .joker
  rw [count_expandStacks] at h1
  rw [countP_missing_other _ _ (by intro s h; cases h)] at h1
  have hd : createDeck.count Card.joker = 1 := by decide
  rw [hd] at h1
  simpa using h1

theorem removeDragonsFrom_bounds (suit : Suit) (cnt : Nat) (l : List CardCell)
    (h4 : cnt ≤ 4) :
    cnt ≤ (removeDragonsFrom suit cnt l).1 ∧ (removeDragonsFrom suit cnt l).1 ≤ 4 := by
  induction l generalizing cnt with
  | nil => exact ⟨Nat.le_refl _, h4⟩
  | cons c cs ih =>
    simp only [removeDragonsFrom]
    split
    · exact ⟨Nat.le_refl _, h4⟩
    next hcnt =>
      split
      next s htop =>
        split
        · have := ih (cnt + 1) (by omega)
          exact ⟨by omega, this.2⟩
        · exact ih cnt h4
      · exact ih cnt h4

theorem removeDragonsFrom_count (suit : Suit) (cnt : Nat) (l : List CardCell)
    (h4 : cnt ≤ 4) (x : Card) :
    (cellsCards (removeDragonsFrom suit cnt l).2).count x
        + ((removeDragonsFrom suit cnt l).1 - cnt)
          * (if x = Card.dragon suit then 1 else 0)
      = (cellsCards l).count x := by
  induction l generalizing cnt with
  | nil => simp [removeDragonsFrom]
  | cons c cs ih =>
    have hsplit : ∀ (d : CardCell) (ds : List CardCell),
        (cellsCards (d :: ds)).count x = (cellCards d).count x + (cellsCards ds).count x := by
      intro d ds
      show (cellCards d ++ cellsCards ds).count x = _
      rw [List.count_append]
    simp only [removeDragonsFrom]
    split
    · simp
    next hcnt =>
      split
      next s htop =>
        split
        next hs =>
          rw [hs] at htop
          have hb := removeDragonsFrom_bounds suit (cnt + 1) cs (by omega)
          have hrec := ih (cnt + 1) (by omega)
          have hpop := count_cellCards_pop c (Card.dragon suit) htop
            (top_dragon_no_goal_number c suit htop) x
          rw [hsplit, hsplit]
          by_cases hx : x = Card.dragon suit
          · rw [if_pos hx] at hrec hpop ⊢
            simp only [Nat.mul_one] at hrec ⊢
            omega
          · rw [if_neg hx] at hrec hpop ⊢
            simp only [Nat.mul_zero] at hrec ⊢
            omega
        · have hrec := ih cnt h4
          rw [hsplit, hsplit]
          by_cases hx : x = Card.dragon suit
          · rw [if_pos hx] at hrec ⊢
            simp only [Nat.mul_one] at hrec ⊢
            omega
          · rw [if_neg hx] at hrec ⊢
            simp only [Nat.mul_zero] at hrec ⊢
            omega
      · have hrec := ih cnt h4
        rw [hsplit, hsplit]
        by_cases hx : x = Card.dragon suit
        · rw [if_pos hx] at hrec ⊢
          simp only [Nat.mul_one] at hrec ⊢
          omega
        · rw [if_neg hx] at hrec ⊢
          simp only [Nat.mul_zero] at hrec ⊢
          omega

theorem removeDragonsFrom_all_kind (p : CardCell → Bool) (hp : ∀ c, p c.pop = p c)
    (suit : Suit) (cnt : Nat) (l : List CardCell) (hl : l.all p = true) :
    (removeDragonsFrom suit cnt l).2.all p = true := by
  induction l generalizing cnt with
  | nil => rfl
  | cons c cs ih =>
    simp only [List.all_cons, Bool.and_eq_true] at hl
    simp only [removeDragonsFrom]
    split
    · simp only [List.all_cons, Bool.and_eq_true]
      exact ⟨hl.1, hl.2⟩
    · split
      next s htop =>
        split
        · simp only [List.all_cons, Bool.and_eq_true]
          exact ⟨by rw [hp]; exact hl.1, ih (cnt + 1) hl.2⟩
        · simp only [List.all_cons, Bool.and_eq_true]
          exact ⟨hl.1, ih cnt hl.2⟩
      · simp only [List.all_cons, Bool.and_eq_true]
        exact ⟨hl.1, ih cnt hl.2⟩

theorem cellCards_nil_of_top_none (c : CardCell) (hk : kindJoker c = false)
    (ht : c.top = none) : cellCards c = [] := by
  cases c with
  | jokerCell bj => simp [kindJoker] at hk
  | freeCell o =>
    cases o with
    | none => rfl
    | some card => simp [CardCell.top] at ht
  | gameCell st =>
    cases st with
    | nil => rfl
    | cons a as => simp [CardCell.top] at ht
  | goalCell o =>
    cases o with
    | none => rfl
    | some card => simp [CardCell.top] at ht

theorem placeDragonStack_count (l l2 : List CardCell)
    (h : placeDragonStack l = some l2)
    (hk : l.all (fun c => !(kindJoker c)) = true) (x : Card) :
    (cellsCards l2).count x
      = (cellsCards l).count x + (if x = Card.dragonStack then 1 else 0) := by
  induction l generalizing l2 with
  | nil => simp [placeDragonStack] at h
  | cons c cs ih =>
    simp only [List.all_cons, Bool.and_eq_true] at hk
    simp only [placeDragonStack] at h
    split at h
    next htop =>
      cases h
      have hnil : cellCards c = [] := cellCards_nil_of_top_none c (by
        cases hkc : kindJoker c
        · rfl
        · rw [hkc] at hk
          simp at hk) htop
      show (cellCards (CardCell.freeCell (some Card.dragonStack)) ++ cellsCards cs).count x
        = (cellCards c ++ cellsCards cs).count x + _
      rw [hnil]
      rw [show cellCards (CardCell.freeCell (some Card.dragonStack))
        = [Card.dragonStack] from rfl]
      simp only [List.count_append, List.count_nil, count_one]
      omega
    next htop =>
      cases hm : placeDragonStack cs with
      | none =>
        rw [hm] at h
        simp at h
      | some cs2 =>
        rw [hm] at h
        have h2 : c :: cs2 = l2 := by simpa using h
        subst h2
        have hrec := ih cs2 hm hk.2
        show (cellCards c ++ cellsCards cs2).count x
          = (cellCards c ++ cellsCards cs).count x + _
        simp only [List.count_append]
        omega

/-- A successful `stack_dragons` removes exactly four dragons of the suit
and adds exactly one `DragonStack`. -/
theorem stackDragons_count (b b2 : Board) (suit : Suit)
    (hw : b.wellKinded = true)
    (h : b.stackDragons suit = some b2) (x : Card) :
    b2.cards.count x + 4 * (if x = Card.dragon suit then 1 else 0)
      = b.cards.count x + (if x = Card.dragonStack then 1 else 0) := by
  simp only [Board.stackDragons, Board.removeDragons] at h
  split at h
  next hcond =>
    rw [decide_eq_true_eq] at hcond
    cases hm : placeDragonStack
        (removeDragonsFrom suit
          (removeDragonsFrom suit 0 b.gameCells).1 b.freeCells).2 with
    | none =>
      rw [hm] at h
      simp at h
    | some f2 =>
      rw [hm] at h
      simp only [Option.map, Option.some.injEq] at h
      subst h
      have hgb := removeDragonsFrom_bounds suit 0 b.gameCells (by omega)
      have hg := removeDragonsFrom_count suit 0 b.gameCells (by omega) x
      have hfr := removeDragonsFrom_count suit
        (removeDragonsFrom suit 0 b.gameCells).1 b.freeCells hgb.2 x
      have hnj : b.freeCells.all (fun c => !(kindJoker c)) = true := by
        simp only [Board.wellKinded, Bool.and_eq_true, List.all_eq_true] at hw
        rw [List.all_eq_true]
        intro c hc
        have := hw.1.1.2 c hc
        cases c <;> simp_all [kindFree, kindJoker]
      have hnj2 : (removeDragonsFrom suit
          (removeDragonsFrom suit 0 b.gameCells).1 b.freeCells).2.all
          (fun c => !(kindJoker c)) = true :=
        removeDragonsFrom_all_kind _ (fun c => by rw [(pop_kind c).1]) suit _ _ hnj
      have hplace := placeDragonStack_count _ f2 hm hnj2 x
      have hb2 : Board.cards ⟨b.jokerCell, f2, b.goalCells,
          (removeDragonsFrom suit 0 b.gameCells).2⟩
          = cellCards b.jokerCell ++ cellsCards f2 ++ cellsCards b.goalCells
            ++ cellsCards (removeDragonsFrom suit 0 b.gameCells).2 := rfl
      have hbc : b.cards = cellCards b.jokerCell ++ cellsCards b.freeCells
          ++ cellsCards b.goalCells ++ cellsCards b.gameCells := rfl
      rw [hb2, hbc]
      simp only [List.count_append]
      have hfb := removeDragonsFrom_bounds suit
        (removeDragonsFrom suit 0 b.gameCells).1 b.freeCells hgb.2
      by_cases hx1 : x = Card.dragon suit
      · have hx2 : ¬(x = Card.dragonStack) := by
          rw [hx1]
          simp
        rw [if_pos hx1] at hg hfr ⊢
        rw [if_neg hx2]
        rw [if_neg hx2] at hplace
        simp only [Nat.mul_one] at hg hfr ⊢
        omega
      · rw [if_neg hx1] at hg hfr ⊢
        simp only [Nat.mul_zero] at hg hfr ⊢
        by_cases hx2 : x = Card.dragonStack
        · rw [if_pos hx2] at hplace ⊢
          omega
        · rw [if_neg hx2] at hplace ⊢
          omega
  · exact absurd h (by simp)

theorem filter_length_flip (p q : Suit → Bool) (suit : Suit)
    (hne : ∀ s, s ≠ suit → q s = p s) (hq : q suit = true) (hp : p suit = false) :
    (suitList.filter q).length = (suitList.filter p).length + 1 := by
  rw [← List.countP_eq_length_filter, ← List.countP_eq_length_filter]
  have hl : suitList = [Suit.black, Suit.green, Suit.red] := rfl
  rw [hl]
  simp only [List.countP_cons, List.countP_nil]
  cases suit with
  | black =>
    rw [hne Suit.green (by decide), hne Suit.red (by decide), hq, hp]
    cases hpg : p Suit.green <;> cases hpr : p Suit.red <;> simp
  | green =>
    rw [hne Suit.black (by decide), hne Suit.red (by decide), hq, hp]
    cases hpb : p Suit.black <;> cases hpr : p Suit.red <;> simp
  | red =>
    rw [hne Suit.black (by decide), hne Suit.green (by decide), hq, hp]
    cases hpb : p Suit.black <;> cases hpg : p Suit.green <;> simp

/-- A successful `stack_dragons` keeps the full-deck invariant: the four
vanished dragons are exactly re-accounted by the new `DragonStack`. -/
theorem stackDragons_fullDeck (b b2 : Board) (suit : Suit)
    (hw : b.wellKinded = true) (hf : b.fullDeck)
    (h : b.stackDragons suit = some b2) : b2.fullDeck := by
  have key := stackDragons_count b b2 suit hw h
  have hcd : b2.cards.count (Card.dragon suit) + 4 = b.cards.count (Card.dragon suit) := by
    have hk := key (Card.dragon suit)
    rw [if_pos rfl, if_neg (by simp)] at hk
    omega
  have hds : b2.cards.count Card.dragonStack = b.cards.count Card.dragonStack + 1 := by
    have hk := key Card.dragonStack
    rw [if_neg (by simp), if_pos rfl] at hk
    omega
  have hoth : ∀ x, x ≠ Card.dragon suit → x ≠ Card.dragonStack →
      b2.cards.count x = b.cards.count x := by
    intro x h1 h2
    have hk := key x
    rw [if_neg h1, if_neg h2] at hk
    omega
  have hdeck : createDeck.count (Card.dragon suit) = 4 := by
    cases suit <;> decide
  have hold4 : b.cards.count (Card.dragon suit) = 4 := by
    have hperm := hf.1.count_eq (Card.dragon suit)
    rw [count_expandStacks, if_neg (by simp), countP_missing_dragon, hdeck] at hperm
    by_cases hz : b.cards.count (Card.dragon suit) = 0
    · omega
    · rw [if_neg hz] at hperm
      omega
  have hnew0 : b2.cards.count (Card.dragon suit) = 0 := by omega
  constructor
  · rw [List.perm_iff_count]
    intro y
    have hdy := hf.1.count_eq y
    rw [count_expandStacks] at hdy
    rw [count_expandStacks]
    by_cases hy1 : y = Card.dragonStack
    · subst hy1
      rw [if_pos rfl] at hdy ⊢
      rw [countP_missing_other _ _ (by intro s; simp)] at hdy ⊢
      exact hdy
    · rw [if_neg hy1] at hdy ⊢
      cases y with
      | dragon s0 =>
        rw [countP_missing_dragon] at hdy ⊢
        by_cases hs0 : s0 = suit
        · subst hs0
          rw [hnew0, hold4] at *
          rw [if_pos rfl]
          rw [if_neg (by omega)] at hdy
          omega
        · have hcount := hoth (Card.dragon s0) (by simp [hs0]) hy1
          rw [hcount]
          exact hdy
      | joker =>
        rw [countP_missing_other _ _ (by intro s; simp)] at hdy ⊢
        rw [hoth Card.joker (by simp) (by simp)]
        exact hdy
      | number s0 r0 =>
        rw [countP_missing_other _ _ (by intro s; simp)] at hdy ⊢
        rw [hoth (Card.number s0 r0) (by simp) (by simp)]
        exact hdy
      | dragonStack => exact absurd rfl hy1
  · have hlen : (missingDragonSuits b2.cards).length
        = (missingDragonSuits b.cards).length + 1 := by
      unfold missingDragonSuits
      refine filter_length_flip _ _ suit ?_ ?_ ?_
      · intro s hs
        have := hoth (Card.dragon s) (by simp [hs]) (by simp)
        simp [this]
      · simp [hnew0]
      · simp [hold4]
    rw [hds, hlen, hf.2]

/-- Claim C1: card conservation.  For every (well-kinded) board whose card
multiset — counting a `DragonStack` as the four dragons of one fully-absent
suit — equals the fixed 40-card deck, every board produced by `move_stack`,
`move_n_cards`, `stack_dragons` or `do_automoves` has the same property; no
operation creates or destroys a card. -/
theorem claim_C1_conservation (b : Board) (hw : b.wellKinded = true) (hf : b.fullDeck) :
    (∀ s d b2, b.moveStack s d = some (.ok b2) → b2.fullDeck) ∧
    (∀ si di n b2, b.moveNCardsByIdx si di n = some b2 → b2.fullDeck) ∧
    (∀ suit b2, b.stackDragons suit = some b2 → b2.fullDeck) ∧
    b.doAutomoves.fullDeck := by
  refine ⟨?_, ?_, ?_, ?_⟩
  · intro s d b2 h
    exact fullDeck_of_count_eq b b2 (moveStack_cards_count b b2 s d hw h) hf
  · intro si di n b2 h
    exact fullDeck_of_count_eq b b2 (moveN_cards_count b b2 si di n h) hf
  · intro suit b2 h
    exact stackDragons_fullDeck b b2 suit hw hf h
  · exact fullDeck_of_count_eq b _
      (doAutomoves_cards_count b hw
        (Nat.le_of_eq (fullDeck_count_joker b hf))) hf

/-- Witness for C1 at a concrete full-deck board (the identity deal). -/
theorem claim_C1_conservation_witness :
    (dealShuffled createDeck).wellKinded = true ∧ (dealShuffled createDeck).fullDeck ∧
    ((∀ s d b2, (dealShuffled createDeck).moveStack s d = some (.ok b2) → b2.fullDeck) ∧
     (∀ si di n b2, (dealShuffled createDeck).moveNCardsByIdx si di n = some b2 →
        b2.fullDeck) ∧
     (∀ suit b2, (dealShuffled createDeck).stackDragons suit = some b2 → b2.fullDeck) ∧
     ((dealShuffled createDeck).doAutomoves).fullDeck) :=
  ⟨by decide, by decide,
    claim_C1_conservation (dealShuffled createDeck) (by decide) (by decide)⟩

/-- Witness for C10 at the identity shuffle. -/
theorem claim_C10_deal_shape_witness :
    createDeck.Perm createDeck ∧
    ((dealShuffled createDeck).jokerCell = .jokerCell false ∧
     (dealShuffled createDeck).freeCells = [.freeCell none, .freeCell none, .freeCell none] ∧
     (dealShuffled createDeck).goalCells = [.goalCell none, .goalCell none, .goalCell none] ∧
     (dealShuffled createDeck).gameCells.length = 8 ∧
     (∀ c ∈ (dealShuffled createDeck).gameCells,
       kindGame c = true ∧ (cellCards c).length = 5) ∧
     (cellsCards (dealShuffled createDeck).gameCells).Perm createDeck) :=
  ⟨List.Perm.refl _, claim_C10_deal_shape createDeck (List.Perm.refl _)⟩

/-- Counterexample to claim C9 as stated: `pop_n(1)` on an occupied free
slot is a fatal panic (the claim says it is defined there), and `pop` on an
empty column is defined as a no-op (the claim restricts it to non-empty
columns). -/
theorem claim_C9_counterexample :
    (CardCell.freeCell (some (Card.number .red 5))).popNQ 1 = none ∧
    (CardCell.gameCell []).popQ = some (.gameCell []) := by
  decide

/-- Claim C9 (amended): `pop` is defined exactly on free slots and columns
— including an empty column, where it is a no-op; `pop_n(n)` is defined
exactly on columns holding at least `n` cards, never on free slots;
applying either to a joker slot or goal pile (or `pop_n` to any
non-column) is the fatal programmer-contract panic, not an error return. -/
theorem claim_C9_pop_domain (cell : CardCell) (n : Nat) :
    ((cell.popQ).isSome ↔ (kindFree cell = true ∨ kindGame cell = true)) ∧
    ((cell.popNQ n).isSome ↔ ∃ st, cell = .gameCell st ∧ n ≤ st.length) := by
  constructor
  · cases cell <;> simp [CardCell.popQ, kindFree, kindGame]
  · cases cell with
    | gameCell st =>
      simp only [CardCell.popNQ]
      constructor
      · intro h
        refine ⟨st, rfl, ?_⟩
        by_contra hn
        rw [if_neg hn] at h
        simp at h
      · rintro ⟨st2, hst, hn⟩
        cases hst
        rw [if_pos hn]
        simp
    | jokerCell bj => simp [CardCell.popNQ]
    | freeCell o => simp [CardCell.popNQ]
    | goalCell o => simp [CardCell.popNQ]

/-- Witness for C9: the amended domain at concrete cells. -/
theorem claim_C9_pop_domain_witness :
    (((CardCell.gameCell [Card.number .red 5]).popQ).isSome
      ↔ (kindFree (CardCell.gameCell [Card.number .red 5]) = true
          ∨ kindGame (CardCell.gameCell [Card.number .red 5]) = true)) ∧
    (((CardCell.gameCell [Card.number .red 5]).popNQ 1).isSome
      ↔ ∃ st, CardCell.gameCell [Card.number .red 5] = .gameCell st ∧ 1 ≤ st.length) :=
  claim_C9_pop_domain (CardCell.gameCell [Card.number .red 5]) 1

/-- A board with a single red 5 in column 0, used as a concrete input. -/
def selfMoveBoard : Board :=
  ⟨.jokerCell false,
   [.freeCell none, .freeCell none, .freeCell none],
   [.goalCell none, .goalCell none, .goalCell none],
   [.gameCell [.number .red 5], .gameCell [], .gameCell [], .gameCell [], .gameCell [],
    .gameCell [], .gameCell [], .gameCell []]⟩

/-- Counterexample to claim C7 as stated: `move_n_cards(X, X, 1)` on a
column holding one card does not fail — it succeeds (returning the board
unchanged). -/
theorem claim_C7_counterexample :
    selfMoveBoard.moveNCardsByIdx 0 0 1 = some selfMoveBoard := by
  decide

theorem set_getD_self (l : List CardCell) (i : Nat) (h : i < l.length) :
    l.set i (l.getD i junkCell) = l := by
  induction l generalizing i with
  | nil => simp at h
  | cons a as ih =>
    cases i with
    | zero => rfl
    | succ n =>
      show a :: as.set n (as.getD n junkCell) = a :: as
      rw [ih n (by simpa using h)]

/-- Claim C7 (amended): `move_stack(X, X)` is always `InvalidMove`, and
`move_stack` from a slot with no exposed card is always `InvalidMove`; but
`move_n_cards(X, X, n)` is not always a failure — whenever it succeeds it
returns a board equal to the original (pop then re-accept round-trips). -/
theorem claim_C7_self_and_empty (b : Board) :
    (∀ X, b.moveStack X X = some (.error .invalidMove)) ∧
    (∀ X Y, (b.getCell X).top = none → b.moveStack X Y = some (.error .invalidMove)) ∧
    (∀ i n b2, b.moveNCardsByIdx i i n = some b2 → b2 = b) := by
  refine ⟨?_, ?_, ?_⟩
  · intro X
    simp [Board.moveStack]
  · intro X Y htop
    simp only [Board.moveStack]
    split
    · rfl
    next hxy =>
      split
      next r heq =>
        split at heq
        next si di =>
          split at heq
          next hocc =>
            have hmns : b.moveNumberCardStack si di = none := by
              unfold Board.moveNumberCardStack
              split
              · split
                next htop2 =>
                  rw [show (b.gameCells.getD si junkCell)
                    = b.getCell (.gameCellIndex si) from rfl, htop] at htop2
                  exact Option.noConfusion htop2
                · rfl
              · rfl
            rw [hmns] at heq
            rw [Option.some.injEq] at heq
            rw [← heq]
          next hocc =>
            split at heq
            next hgt =>
              have hlen0 : (b.gameCells.getD si junkCell).iterStack = [] := by
                by_contra hne
                obtain ⟨st, hcell, hstne⟩ := iterStack_ne_nil_game _ hne
                have htl : (b.getCell (.gameCellIndex si)).top
                    = some (st.getLast hstne) := by
                  rw [show b.getCell (.gameCellIndex si)
                    = b.gameCells.getD si junkCell from rfl, hcell]
                  exact List.getLast?_eq_getLast st hstne
                rw [htop] at htl
                exact Option.noConfusion htl
              rw [hlen0] at hgt
              simp at hgt
            · exact Option.noConfusion heq
        next hng =>
          exact Option.noConfusion heq
      next heq =>
        rw [htop]
  · intro i n b2 h
    simp only [Board.moveNCardsByIdx] at h
    split at h
    · exact absurd h (by simp)
    next hcond =>
      push_neg at hcond
      obtain ⟨hn0, hlen⟩ := hcond
      split at h
      next newDest haccept =>
        rw [Option.some.injEq] at h
        subst h
        have hstne : (b.gameCells.getD i junkCell).iterStack ≠ [] := by
          intro hnil
          rw [hnil] at hlen
          simp at hlen
          omega
        obtain ⟨srcStack, hsrcEq, hsrcne⟩ := iterStack_ne_nil_game _ hstne
        have hi : i < b.gameCells.length := by
          by_contra hge
          rw [List.getD_eq_default _ _ (by omega)] at hsrcEq
          simp [junkCell] at hsrcEq
        obtain ⟨destStack, hdestEq, hnewEq⟩ := acceptStack_sound _ _ _ haccept
        have hgd : (b.gameCells.set i ((b.gameCells.getD i junkCell).popN n)).getD i
            junkCell = (b.gameCells.getD i junkCell).popN n := by
          rw [List.getD_eq_getElem?_getD, List.getElem?_set_self (by simpa using hi)]
          rfl
        rw [hgd, hsrcEq] at hdestEq
        have hds : destStack = srcStack.take (srcStack.length - n) := by
          have : CardCell.gameCell (srcStack.take (srcStack.length - n))
              = CardCell.gameCell destStack := by
            rw [← hdestEq]
            rfl
          cases this
          rfl
        have hsub : (b.gameCells.getD i junkCell).iterStack.drop
              ((b.gameCells.getD i junkCell).iterStack.length - n)
            = srcStack.drop (srcStack.length - n) := by
          rw [hsrcEq]
          exact iterStack_drop srcStack n (by rw [hsrcEq] at hlen; omega)
        rw [hsub, hds] at hnewEq
        rw [List.take_append_drop] at hnewEq
        have hfinal : (b.gameCells.set i ((b.gameCells.getD i junkCell).popN n)).set i
            newDest = b.gameCells := by
          rw [List.set_set, hnewEq, ← hsrcEq]
          exact set_getD_self b.gameCells i hi
        cases b
        simp only at hfinal
        rw [hfinal]
      · exact absurd h (by simp)

/-- Witness for C7 at concrete boards: a self `move_stack`, a `move_stack`
from an empty column, and a self `move_n_cards` (hypothesis discharged by
computation). -/
theorem claim_C7_self_and_empty_witness :
    selfMoveBoard.moveStack (.gameCellIndex 0) (.gameCellIndex 0)
      = some (.error .invalidMove) ∧
    selfMoveBoard.moveStack (.gameCellIndex 1) (.gameCellIndex 0)
      = some (.error .invalidMove) ∧
    selfMoveBoard = selfMoveBoard :=
  ⟨(claim_C7_self_and_empty selfMoveBoard).1 (.gameCellIndex 0),
   (claim_C7_self_and_empty selfMoveBoard).2.1 (.gameCellIndex 1) (.gameCellIndex 0)
     (by decide),
   (claim_C7_self_and_empty selfMoveBoard).2.2 0 1 selfMoveBoard (by decide)⟩

/-- Counterexample to claim C8 as stated: `iter_stack` on a column whose
top is a dragon returns that single non-Number card, so the run is not
always a sequence of Number cards. -/
theorem claim_C8_counterexample :
    (CardCell.gameCell [Card.dragon .red]).iterStack = [Card.dragon .red] ∧
    ∀ s r, Card.dragon Suit.red ≠ Card.number s r :=
  ⟨by decide, fun s r h => Card.noConfusion h⟩

theorem canHold_number (a b : Card) (h : a.canHold b = true) :
    (∃ s r, a = Card.number s r) ∧ ∃ s r, b = Card.number s r := by
  cases a <;> cases b <;> simp_all [Card.canHold]

/-- Downward chain property of `chainUp`: each added card holds the one
before it. -/
theorem chainUp_chain (last : Card) (l : List Card) :
    List.Chain' (fun a b => b.canHold a = true) (last :: CardCell.chainUp last l) := by
  induction l generalizing last with
  | nil => simp [CardCell.chainUp]
  | cons c cs ih =>
    unfold CardCell.chainUp
    split
    next hch => exact List.chain'_cons.mpr ⟨hch, ih c⟩
    · simp

/-- `chainUp` stops exactly where the chain breaks. -/
theorem chainUp_break (last : Card) (l : List Card) :
    l = CardCell.chainUp last l ++ l.drop (CardCell.chainUp last l).length ∧
    ∀ c cs, l.drop (CardCell.chainUp last l).length = c :: cs →
      ∀ (hne : (last :: CardCell.chainUp last l) ≠ []),
      c.canHold ((last :: CardCell.chainUp last l).getLast hne) = false := by
  induction l generalizing last with
  | nil =>
    refine ⟨rfl, ?_⟩
    intro c cs hc
    cases hc
  | cons c cs ih =>
    unfold CardCell.chainUp
    split
    next hch =>
      obtain ⟨ih1, ih2⟩ := ih c
      constructor
      · show c :: cs = c :: (CardCell.chainUp c cs
          ++ cs.drop (CardCell.chainUp c cs).length)
        rw [← ih1]
      · intro d ds hd hne
        have hlast : (last :: c :: CardCell.chainUp c cs).getLast hne
            = (c :: CardCell.chainUp c cs).getLast (by simp) :=
          List.getLast_cons _
        rw [hlast]
        exact ih2 d ds (by simpa using hd) _
    next hch =>
      refine ⟨rfl, ?_⟩
      intro d ds hd hne
      have hdc : d = c := by
        have := congrArg List.head? hd
        simp at this
        exact this.symm
      subst hdc
      show d.canHold last = false
      cases hc2 : d.canHold last
      · rfl
      · exact absurd hc2 hch

/-- Every card of a chained list of length at least 2 is a Number card. -/
theorem chain_all_number (l : List Card)
    (hc : List.Chain' (fun a b => a.canHold b = true) l) (hlen : 2 ≤ l.length) :
    ∀ c ∈ l, ∃ s r, c = Card.number s r := by
  induction l with
  | nil => simp at hlen
  | cons a l ih =>
    cases l with
    | nil => simp at hlen
    | cons b l2 =>
      rw [List.chain'_cons] at hc
      have hnum := canHold_number a b hc.1
      intro c hcmem
      rcases List.mem_cons.mp hcmem with rfl | hmem
      · exact hnum.1
      · cases l2 with
        | nil =>
          rw [List.mem_singleton] at hmem
          subst hmem
          exact hnum.2
        | cons d l3 => exact ih hc.2 (by simp) c hmem

/-- Claim C8 (amended): on every non-empty column, `iter_stack` returns a
non-empty sequence ending at the exposed top card, chained bottom-to-top
(each card holds the one above: rank descending by exactly 1 with
differing suits), consisting entirely of Number cards whenever it is
longer than 1 (a non-Number top yields the singleton run), maximal (the
card beneath the run, if any, does not chain onto it), and of length
exactly 1 when the top two cards do not chain. -/
theorem claim_C8_run_validity (st : List Card) (hne : st ≠ []) :
    (CardCell.gameCell st).iterStack ≠ [] ∧
    (CardCell.gameCell st).iterStack.getLast? = st.getLast? ∧
    List.Chain' (fun a b => a.canHold b = true) (CardCell.gameCell st).iterStack ∧
    (2 ≤ (CardCell.gameCell st).iterStack.length →
      ∀ c ∈ (CardCell.gameCell st).iterStack, ∃ s r, c = Card.number s r) ∧
    (∃ pre, st = pre ++ (CardCell.gameCell st).iterStack ∧
      ∀ p c, pre.getLast? = some p →
        ((CardCell.gameCell st).iterStack).head? = some c → p.canHold c = false) ∧
    (∀ t1 t2 rest2, st.reverse = t1 :: t2 :: rest2 → t2.canHold t1 = false →
      (CardCell.gameCell st).iterStack = [t1]) := by
  cases hrev : st.reverse with
  | nil =>
    exact absurd (by simpa using congrArg List.reverse hrev) hne
  | cons t rest =>
    have hit : (CardCell.gameCell st).iterStack
        = (t :: CardCell.chainUp t rest).reverse := by
      simp only [CardCell.iterStack]
      rw [hrev]
    have hst : st = rest.reverse ++ [t] := by
      have := congrArg List.reverse hrev
      simpa using this
    refine ⟨?_, ?_, ?_, ?_, ?_, ?_⟩
    · rw [hit]
      simp
    · rw [hit, List.getLast?_reverse]
      have h2 : st.getLast? = st.reverse.head? := (List.head?_reverse st).symm
      rw [h2, hrev]
      rfl
    · rw [hit]
      rw [List.chain'_reverse]
      exact chainUp_chain t rest
    · intro hlen c hcmem
      refine chain_all_number _ ?_ hlen c hcmem
      rw [hit, List.chain'_reverse]
      exact chainUp_chain t rest
    · obtain ⟨hb1, hb2⟩ := chainUp_break t rest
      refine ⟨(rest.drop (CardCell.chainUp t rest).length).reverse, ?_, ?_⟩
      · rw [hit, hst]
        conv_lhs => rw [hb1]
        simp
      · intro p c hp hc
        rw [List.getLast?_reverse] at hp
        rw [hit, List.head?_reverse] at hc
        cases hd : rest.drop (CardCell.chainUp t rest).length with
        | nil =>
          rw [hd] at hp
          cases hp
        | cons d ds =>
          rw [hd] at hp
          have hpd : p = d := (Option.some.inj hp).symm
          subst hpd
          have hgl := List.getLast?_eq_getLast (t :: CardCell.chainUp t rest) (by simp)
          rw [hgl] at hc
          have hcg : c = (t :: CardCell.chainUp t rest).getLast (by simp) :=
            (Option.some.inj hc).symm
          subst hcg
          exact hb2 p ds hd (by simp)
    · intro t1 t2 rest2 hrev2 hch
      have ht1 : t = t1 := by
        have := congrArg List.head? hrev2
        simpa using this
      have hrest : rest = t2 :: rest2 := by
        have := congrArg List.tail hrev2
        simpa using this
      subst ht1
      rw [hit, hrest]
      unfold CardCell.chainUp
      rw [if_neg (by rw [hch]; simp)]
      rfl

/-- Witness for C8 at a concrete two-card run. -/
theorem claim_C8_run_validity_witness :
    (CardCell.gameCell [Card.number .red 5, Card.number .black 4]).iterStack ≠ [] :=
  (claim_C8_run_validity [Card.number .red 5, Card.number .black 4] (by decide)).1

theorem gameCellIndex_ne (si di : Nat) (hne : si ≠ di) :
    (CardCellIndex.gameCellIndex si) ≠ (CardCellIndex.gameCellIndex di) := by
  intro hc
  cases hc
  exact hne rfl

/-- With both columns addressed and the destination occupied, `move_stack`
is exactly the `move_number_card_stack` special case. -/
theorem moveStack_game_occupied (b : Board) (si di : Nat) (hne : si ≠ di)
    (dTop : Card) (hocc : (b.gameCells.getD di junkCell).top = some dTop) :
    b.moveStack (.gameCellIndex si) (.gameCellIndex di)
      = some (match b.moveNumberCardStack si di with
        | some board => Except.ok board
        | none => Except.error MoveStackError.invalidMove) := by
  simp only [Board.moveStack, hocc, Option.isSome_some, if_true,
    if_neg (gameCellIndex_ne si di hne)]

/-- Inside a successful `move_n_cards_by_idx`, the source column is popped
by exactly `n` cards. -/
theorem moveN_source_popped (b b2 : Board) (si di n : Nat) (hne : si ≠ di)
    (h : b.moveNCardsByIdx si di n = some b2) :
    b2.gameCells.getD si junkCell = (b.gameCells.getD si junkCell).popN n := by
  simp only [Board.moveNCardsByIdx] at h
  split at h
  · exact absurd h (by simp)
  next hcond =>
    push_neg at hcond
    split at h
    next newDest haccept =>
      rw [Option.some.injEq] at h
      subst h
      have hstne : (b.gameCells.getD si junkCell).iterStack ≠ [] := by
        intro hnil
        rw [hnil] at hcond
        simp at hcond
      obtain ⟨srcStack, hsrcEq, hsrcne⟩ := iterStack_ne_nil_game _ hstne
      have hsi : si < b.gameCells.length := by
        by_contra hge
        rw [List.getD_eq_default _ _ (by omega)] at hsrcEq
        simp [junkCell] at hsrcEq
      show ((b.gameCells.set si ((b.gameCells.getD si junkCell).popN n)).set di
        newDest).getD si junkCell = _
      rw [List.getD_eq_getElem?_getD, List.getElem?_set_ne (fun hc => hne hc.symm),
        ← List.getD_eq_getElem?_getD, List.getD_eq_getElem?_getD,
        List.getElem?_set_self (by simpa using hsi)]
      rfl
    · exact absurd h (by simp)

/-- Claim C4: between two distinct columns with an occupied destination,
the number of cards `move_stack` moves is forced to the difference of the
top ranks: it returns exactly the `move_n_cards` result for that count
(popping precisely that many cards off the source), returns `InvalidMove`
when moving that count is not legal, and returns `InvalidMove` whenever
either exposed top is not a Number card. -/
theorem claim_C4_forced_count (b : Board) (si di : Nat) (hne : si ≠ di)
    (dTop : Card) (hocc : (b.gameCells.getD di junkCell).top = some dTop) :
    (∀ ds dr ss sr, dTop = Card.number ds dr →
      (b.gameCells.getD si junkCell).top = some (Card.number ss sr) →
      (∀ b2, b.moveNCardsByIdx si di (dr - sr) = some b2 →
        b.moveStack (.gameCellIndex si) (.gameCellIndex di) = some (.ok b2) ∧
        b2.gameCells.getD si junkCell
          = (b.gameCells.getD si junkCell).popN (dr - sr)) ∧
      (b.moveNCardsByIdx si di (dr - sr) = none →
        b.moveStack (.gameCellIndex si) (.gameCellIndex di)
          = some (.error .invalidMove))) ∧
    ((∀ ds dr, dTop ≠ Card.number ds dr) →
      b.moveStack (.gameCellIndex si) (.gameCellIndex di)
        = some (.error .invalidMove)) ∧
    ((∀ ss sr, (b.gameCells.getD si junkCell).top ≠ some (Card.number ss sr)) →
      b.moveStack (.gameCellIndex si) (.gameCellIndex di)
        = some (.error .invalidMove)) := by
  have hms := moveStack_game_occupied b si di hne dTop hocc
  refine ⟨?_, ?_, ?_⟩
  · intro ds dr ss sr hd hsrc
    subst hd
    have hmns : b.moveNumberCardStack si di = b.moveNCardsByIdx si di (dr - sr) := by
      simp only [Board.moveNumberCardStack, hocc, hsrc]
    constructor
    · intro b2 hsome
      rw [hmns, hsome] at hms
      exact ⟨hms, moveN_source_popped b b2 si di (dr - sr) hne hsome⟩
    · intro hnone
      rw [hmns, hnone] at hms
      exact hms
  · intro hdnn
    have hmns : b.moveNumberCardStack si di = none := by
      simp only [Board.moveNumberCardStack, hocc]
      cases dTop with
      | number ds dr => exact absurd rfl (hdnn ds dr)
      | joker => rfl
      | dragon s => rfl
      | dragonStack => rfl
    rw [hmns] at hms
    exact hms
  · intro hsnn
    have hmns : b.moveNumberCardStack si di = none := by
      simp only [Board.moveNumberCardStack, hocc]
      cases dTop with
      | number ds dr =>
        cases hsrc : (b.gameCells.getD si junkCell).top with
        | none => rfl
        | some c =>
          cases c with
          | number ss sr => exact absurd hsrc (hsnn ss sr)
          | joker => rfl
          | dragon s => rfl
          | dragonStack => rfl
      | joker => rfl
      | dragon s => rfl
      | dragonStack => rfl
    rw [hmns] at hms
    exact hms

/-- Concrete board for the C4 witness: a red 5 on column 0, a black 6 on
column 1. -/
def forcedBoard : Board :=
  ⟨.jokerCell false,
   [.freeCell none, .freeCell none, .freeCell none],
   [.goalCell none, .goalCell none, .goalCell none],
   [.gameCell [.number .red 5], .gameCell [.number .black 6], .gameCell [], .gameCell [],
    .gameCell [], .gameCell [], .gameCell [], .gameCell []]⟩

/-- Result of moving the forced single card in `forcedBoard`. -/
def forcedBoardMoved : Board :=
  ⟨.jokerCell false,
   [.freeCell none, .freeCell none, .freeCell none],
   [.goalCell none, .goalCell none, .goalCell none],
   [.gameCell [], .gameCell [.number .black 6, .number .red 5], .gameCell [], .gameCell [],
    .gameCell [], .gameCell [], .gameCell [], .gameCell []]⟩

/-- Witness for C4: the forced count (6 − 5 = 1) is moved. -/
theorem claim_C4_forced_count_witness :
    forcedBoard.moveStack (.gameCellIndex 0) (.gameCellIndex 1)
      = some (.ok forcedBoardMoved) ∧
    forcedBoardMoved.gameCells.getD 0 junkCell
      = (forcedBoard.gameCells.getD 0 junkCell).popN 1 :=
  ((claim_C4_forced_count forcedBoard 0 1 (by decide) (Card.number .black 6)
      (by decide)).1 .black 6 .red 5 rfl (by decide)).1 forcedBoardMoved (by decide)

/-- Claim C6: between two distinct columns with an empty destination and a
source run higher than one card, `move_stack` reports `AmbiguousMove` with
the run height, and every height from 1 to the run height succeeds through
`move_n_cards` (on well-kinded boards, with the height below the `u8`
range as any deck-sized board has). -/
theorem claim_C6_ambiguous (b : Board) (si di : Nat) (hne : si ≠ di)
    (hw : b.wellKinded = true)
    (hempty : (b.gameCells.getD di junkCell).top = none)
    (h2 : 1 < (b.gameCells.getD si junkCell).iterStack.length)
    (h255 : (b.gameCells.getD si junkCell).iterStack.length ≤ 255) :
    b.moveStack (.gameCellIndex si) (.gameCellIndex di)
      = some (.error (.ambiguousMove
          ((b.gameCells.getD si junkCell).iterStack.length))) ∧
    (∀ n, 1 ≤ n → n ≤ (b.gameCells.getD si junkCell).iterStack.length →
      ∃ b2, b.moveNCardsByIdx si di n = some b2) := by
  have hdi : di < b.gameCells.length := by
    by_contra hge
    rw [List.getD_eq_default _ _ (by omega)] at hempty
    exact Option.noConfusion hempty
  have hdgame : b.gameCells.getD di junkCell = CardCell.gameCell [] := by
    simp only [Board.wellKinded, Bool.and_eq_true, List.all_eq_true] at hw
    have hmem : b.gameCells.getD di junkCell ∈ b.gameCells := by
      rw [List.getD_eq_getElem?_getD, List.getElem?_eq_getElem hdi]
      exact List.getElem_mem hdi
    have hkind := hw.2 _ hmem
    cases hcell : b.gameCells.getD di junkCell with
    | gameCell stD =>
      cases stD with
      | nil => rfl
      | cons a as =>
        rw [hcell] at hempty
        simp [CardCell.top] at hempty
    | jokerCell bj => rw [hcell] at hkind; simp [kindGame] at hkind
    | freeCell o => rw [hcell] at hkind; simp [kindGame] at hkind
    | goalCell o => rw [hcell] at hkind; simp [kindGame] at hkind
  constructor
  · have hmod : (b.gameCells.getD si junkCell).iterStack.length % 256
        = (b.gameCells.getD si junkCell).iterStack.length :=
      Nat.mod_eq_of_lt (by omega)
    simp only [Board.moveStack, hempty, Option.isSome_none, Bool.false_eq_true,
      if_false, if_neg (gameCellIndex_ne si di hne), if_pos h2, hmod]
  · intro n h1 hn
    rw [← Option.isSome_iff_exists]
    simp only [Board.moveNCardsByIdx]
    rw [if_neg (by omega)]
    have hgd : (b.gameCells.set si ((b.gameCells.getD si junkCell).popN n)).getD di
        junkCell = CardCell.gameCell [] := by
      rw [List.getD_eq_getElem?_getD, List.getElem?_set_ne (fun hc => hne hc),
        ← List.getD_eq_getElem?_getD]
      exact hdgame
    rw [hgd]
    simp [CardCell.acceptStack]

/-- Board with a 2-card run on column 0 and column 1 empty, for the C6
witness. -/
def ambBoard : Board :=
  ⟨.jokerCell false,
   [.freeCell none, .freeCell none, .freeCell none],
   [.goalCell none, .goalCell none, .goalCell none],
   [.gameCell [.number .red 5, .number .black 4], .gameCell [], .gameCell [], .gameCell [],
    .gameCell [], .gameCell [], .gameCell [], .gameCell []]⟩

/-- Witness for C6: a 2-card run onto an empty column is ambiguous, and
height 1 goes through `move_n_cards`. -/
theorem claim_C6_ambiguous_witness :
    ambBoard.moveStack (.gameCellIndex 0) (.gameCellIndex 1)
      = some (.error (.ambiguousMove
          ((ambBoard.gameCells.getD 0 junkCell).iterStack.length))) ∧
    ∃ b2, ambBoard.moveNCardsByIdx 0 1 1 = some b2 :=
  ⟨(claim_C6_ambiguous ambBoard 0 1 (by decide) (by decide) (by decide) (by decide)
      (by decide)).1,
   (claim_C6_ambiguous ambBoard 0 1 (by decide) (by decide) (by decide) (by decide)
      (by decide)).2 1 (by decide) (by decide)⟩

/-- Suit order of the derived Rust `Ord`: Black < Green < Red. -/
def suitIdx : Suit → Nat
  | .black => 0
  | .green => 1
  | .red => 2

/-- Key capturing the derived Rust `Ord` on `Card`: variant order
(Joker < Dragon < Number < DragonStack), then suit, then rank. -/
def cardKey : Card → Nat × Nat × Nat
  | .joker => (0, 0, 0)
  | .dragon s => (1, suitIdx s, 0)
  | .number s r => (2, suitIdx s, r)
  | .dragonStack => (3, 0, 0)

def tripLe (x y : Nat × Nat × Nat) : Bool :=
  decide (x.1 < y.1) || (decide (x.1 = y.1) &&
    (decide (x.2.1 < y.2.1) || (decide (x.2.1 = y.2.1) && decide (x.2.2 ≤ y.2.2))))

def tripLt (x y : Nat × Nat × Nat) : Bool :=
  decide (x.1 < y.1) || (decide (x.1 = y.1) &&
    (decide (x.2.1 < y.2.1) || (decide (x.2.1 = y.2.1) && decide (x.2.2 < y.2.2))))

def cardLe (a b : Card) : Bool := tripLe (cardKey a) (cardKey b)

def cardLt (a b : Card) : Bool := tripLt (cardKey a) (cardKey b)

/-- Lexicographic order on card vectors (derived `Ord` on `Vec<Rc<Card>>`;
`Rc` compares by pointee). -/
def listCardLe : List Card → List Card → Bool
  | [], _ => true
  | _ :: _, [] => false
  | a :: as, b :: bs => cardLt a b || (a == b && listCardLe as bs)

/-- Derived `Ord` on `Option<Rc<Card>>`: `None < Some`. -/
def optionCardLe : Option Card → Option Card → Bool
  | none, _ => true
  | some _, none => false
  | some a, some b => cardLe a b

/-- Derived `Ord` on `CardCell`: variant order
JokerCell < FreeCell < GameCell < GoalCell, then the payloads
(`bool`: false < true). -/
def cellLe : CardCell → CardCell → Bool
  | .jokerCell a, .jokerCell b => !a || b
  | .jokerCell _, _ => true
  | _, .jokerCell _ => false
  | .freeCell a, .freeCell b => optionCardLe a b
  | .freeCell _, _ => true
  | _, .freeCell _ => false
  | .gameCell a, .gameCell b => listCardLe a b
  | .gameCell _, _ => true
  | _, .gameCell _ => false
  | .goalCell a, .goalCell b => optionCardLe a b

theorem tripLe_iff (x y : Nat × Nat × Nat) : tripLe x y = true ↔
    (x.1 < y.1 ∨ (x.1 = y.1 ∧ (x.2.1 < y.2.1 ∨ (x.2.1 = y.2.1 ∧ x.2.2 ≤ y.2.2)))) := by
  simp [tripLe]

theorem tripLt_iff (x y : Nat × Nat × Nat) : tripLt x y = true ↔
    (x.1 < y.1 ∨ (x.1 = y.1 ∧ (x.2.1 < y.2.1 ∨ (x.2.1 = y.2.1 ∧ x.2.2 < y.2.2)))) := by
  simp [tripLt]

theorem suitIdx_inj (s t : Suit) (h : suitIdx s = suitIdx t) : s = t := by
  cases s <;> cases t <;> first | rfl | (simp [suitIdx] at h)

theorem cardKey_inj (a b : Card) (h : cardKey a = cardKey b) : a = b := by
  cases a <;> cases b <;> simp [cardKey, Prod.ext_iff] at h <;> try rfl
  · rw [suitIdx_inj _ _ h]
  · rw [suitIdx_inj _ _ h.1, h.2]

theorem cardLe_total (a b : Card) : cardLe a b = true ∨ cardLe b a = true := by
  rw [cardLe, cardLe, tripLe_iff, tripLe_iff]
  omega

theorem cardLe_trans (a b c : Card) (h1 : cardLe a b = true) (h2 : cardLe b c = true) :
    cardLe a c = true := by
  rw [cardLe, tripLe_iff] at h1 h2 ⊢
  omega

theorem cardLe_antisymm (a b : Card) (h1 : cardLe a b = true) (h2 : cardLe b a = true) :
    a = b := by
  rw [cardLe, tripLe_iff] at h1 h2
  refine cardKey_inj a b ?_
  rw [Prod.ext_iff, Prod.ext_iff]
  constructor
  · omega
  constructor
  · omega
  · omega

theorem cardLt_iff_le_not_le (a b : Card) :
    cardLt a b = true ↔ (cardLe a b = true ∧ ¬ cardLe b a = true) := by
  rw [cardLt, cardLe, cardLe, tripLt_iff, tripLe_iff, tripLe_iff]
  omega

theorem cardLt_trans (a b c : Card) (h1 : cardLt a b = true) (h2 : cardLt b c = true) :
    cardLt a c = true := by
  rw [cardLt, tripLt_iff] at h1 h2 ⊢
  omega

theorem cardLt_asymm (a b : Card) (h1 : cardLt a b = true) : ¬ cardLt b a = true := by
  rw [cardLt, tripLt_iff] at h1 ⊢
  omega

theorem cardLt_irrefl (a : Card) : ¬ cardLt a a = true := by
  rw [cardLt, tripLt_iff]
  omega

theorem cardLe_cases (a b : Card) :
    cardLt a b = true ∨ cardLt b a = true ∨ a = b := by
  by_cases h1 : cardLt a b = true
  · exact Or.inl h1
  · by_cases h2 : cardLt b a = true
    · exact Or.inr (Or.inl h2)
    · refine Or.inr (Or.inr (cardKey_inj a b ?_))
      rw [cardLt, tripLt_iff] at h1 h2
      rw [Prod.ext_iff, Prod.ext_iff]
      refine ⟨by omega, by omega, by omega⟩

theorem listCardLe_total : ∀ (l1 l2 : List Card),
    listCardLe l1 l2 = true ∨ listCardLe l2 l1 = true
  | [], _ => Or.inl rfl
  | _ :: _, [] => Or.inr rfl
  | a :: as, b :: bs => by
    rcases cardLe_cases a b with h | h | h
    · exact Or.inl (by simp [listCardLe, h])
    · exact Or.inr (by simp [listCardLe, h])
    · subst h
      rcases listCardLe_total as bs with h | h
      · exact Or.inl (by simp [listCardLe, h])
      · exact Or.inr (by simp [listCardLe, h])

theorem listCardLe_trans : ∀ (l1 l2 l3 : List Card), listCardLe l1 l2 = true →
    listCardLe l2 l3 = true → listCardLe l1 l3 = true
  | [], _, _, _, _ => rfl
  | _ :: _, [], _, h1, _ => absurd h1 (by simp [listCardLe])
  | _ :: _, _ :: _, [], _, h2 => absurd h2 (by simp [listCardLe])
  | a :: as, b :: bs, c :: cs, h1, h2 => by
    simp only [listCardLe, Bool.or_eq_true, Bool.and_eq_true, beq_iff_eq] at h1 h2 ⊢
    rcases h1 with h1 | ⟨rfl, h1⟩
    · rcases h2 with h2 | ⟨rfl, h2⟩
      · exact Or.inl (cardLt_trans _ _ _ h1 h2)
      · exact Or.inl h1
    · rcases h2 with h2 | ⟨rfl, h2⟩
      · exact Or.inl h2
      · exact Or.inr ⟨rfl, listCardLe_trans as bs cs h1 h2⟩

theorem listCardLe_antisymm : ∀ (l1 l2 : List Card), listCardLe l1 l2 = true →
    listCardLe l2 l1 = true → l1 = l2
  | [], [], _, _ => rfl
  | [], _ :: _, _, h2 => absurd h2 (by simp [listCardLe])
  | _ :: _, [], h1, _ => absurd h1 (by simp [listCardLe])
  | a :: as, b :: bs, h1, h2 => by
    simp only [listCardLe, Bool.or_eq_true, Bool.and_eq_true, beq_iff_eq] at h1 h2
    rcases h1 with h1 | ⟨rfl, h1⟩
    · rcases h2 with h2 | ⟨rfl, h2⟩
      · exact absurd h2 (cardLt_asymm _ _ h1)
      · exact absurd h1 (cardLt_irrefl _)
    · rcases h2 with h2 | ⟨-, h2⟩
      · exact absurd h2 (cardLt_irrefl _)
      · rw [listCardLe_antisymm as bs h1 h2]

theorem optionCardLe_total (o1 o2 : Option Card) :
    optionCardLe o1 o2 = true ∨ optionCardLe o2 o1 = true := by
  cases o1 with
  | none => exact Or.inl rfl
  | some a =>
    cases o2 with
    | none => exact Or.inr rfl
    | some b => exact cardLe_total a b

theorem optionCardLe_trans (o1 o2 o3 : Option Card) (h1 : optionCardLe o1 o2 = true)
    (h2 : optionCardLe o2 o3 = true) : optionCardLe o1 o3 = true := by
  cases o1 with
  | none => rfl
  | some a =>
    cases o2 with
    | none => exact absurd h1 (by simp [optionCardLe])
    | some b =>
      cases o3 with
      | none => exact absurd h2 (by simp [optionCardLe])
      | some c => exact cardLe_trans a b c h1 h2

theorem optionCardLe_antisymm (o1 o2 : Option Card) (h1 : optionCardLe o1 o2 = true)
    (h2 : optionCardLe o2 o1 = true) : o1 = o2 := by
  cases o1 with
  | none =>
    cases o2 with
    | none => rfl
    | some b => exact absurd h2 (by simp [optionCardLe])
  | some a =>
    cases o2 with
    | none => exact absurd h1 (by simp [optionCardLe])
    | some b => rw [cardLe_antisymm a b h1 h2]

theorem boolLe_total (x y : Bool) : (!x || y) = true ∨ (!y || x) = true := by
  cases x <;> cases y <;> simp

theorem boolLe_trans (x y z : Bool) (h1 : (!x || y) = true) (h2 : (!y || z) = true) :
    (!x || z) = true := by
  cases x <;> cases y <;> cases z <;> simp_all

theorem boolLe_antisymm (x y : Bool) (h1 : (!x || y) = true) (h2 : (!y || x) = true) :
    x = y := by
  cases x <;> cases y <;> simp_all

theorem cellLe_total (a b : CardCell) : cellLe a b = true ∨ cellLe b a = true := by
  cases a <;> cases b <;> simp only [cellLe] <;>
    first
      | exact Or.inl trivial
      | exact Or.inr trivial
      | exact Or.inl rfl
      | exact Or.inr rfl
      | exact boolLe_total _ _
      | exact optionCardLe_total _ _
      | exact listCardLe_total _ _

theorem cellLe_trans (a b c : CardCell) (h1 : cellLe a b = true)
    (h2 : cellLe b c = true) : cellLe a c = true := by
  cases a <;> cases b <;> cases c <;> simp only [cellLe] at h1 h2 ⊢ <;>
    first
      | trivial
      | exact absurd h1 Bool.false_ne_true
      | exact absurd h2 Bool.false_ne_true
      | exact boolLe_trans _ _ _ h1 h2
      | exact optionCardLe_trans _ _ _ h1 h2
      | exact listCardLe_trans _ _ _ h1 h2

theorem cellLe_antisymm (a b : CardCell) (h1 : cellLe a b = true)
    (h2 : cellLe b a = true) : a = b := by
  cases a <;> cases b <;> simp only [cellLe] at h1 h2 <;>
    first
      | exact absurd h1 Bool.false_ne_true
      | exact absurd h2 Bool.false_ne_true
      | exact congrArg CardCell.jokerCell (boolLe_antisymm _ _ h1 h2)
      | exact congrArg CardCell.freeCell (optionCardLe_antisymm _ _ h1 h2)
      | exact congrArg CardCell.gameCell (listCardLe_antisymm _ _ h1 h2)
      | exact congrArg CardCell.goalCell (optionCardLe_antisymm _ _ h1 h2)

instance : IsTrans CardCell (fun a b => cellLe a b = true) := ⟨cellLe_trans⟩

instance : IsTotal CardCell (fun a b => cellLe a b = true) := ⟨cellLe_total⟩

instance : IsAntisymm CardCell (fun a b => cellLe a b = true) := ⟨cellLe_antisymm⟩

/-- `itertools::sorted`, with the derived `Ord` on `CardCell`. -/
def sortCells (l : List CardCell) : List CardCell :=
  List.insertionSort (fun a b => cellLe a b = true) l

/-- Sorting is invariant under permutation of the input (the order is
total, transitive and antisymmetric). -/
theorem sortCells_perm_inv (l1 l2 : List CardCell) (hp : l1.Perm l2) :
    sortCells l1 = sortCells l2 :=
  List.eq_of_perm_of_sorted
    ((List.perm_insertionSort _ l1).trans (hp.trans (List.perm_insertionSort _ l2).symm))
    (List.sorted_insertionSort _ l1) (List.sorted_insertionSort _ l2)

/-- `impl PartialEq for Board`: the joker slot compares directly; the
game, free and goal groups compare after sorting. -/
def boardEqB (a b : Board) : Bool :=
  a.jokerCell == b.jokerCell &&
  sortCells a.gameCells == sortCells b.gameCells &&
  sortCells a.freeCells == sortCells b.freeCells &&
  sortCells a.goalCells == sortCells b.goalCells

/-- `impl Hash for Board` feeds the hasher exactly this data: the joker
slot and the three sorted groups; boards with equal `hashData` hash
identically. -/
def hashData (b : Board) :
    CardCell × List CardCell × List CardCell × List CardCell :=
  (b.jokerCell, sortCells b.gameCells, sortCells b.freeCells, sortCells b.goalCells)

/-- Claim C5: permuting the 3 free slots, the 3 goal piles, or the 8
columns (or all three groups at once) yields a board that compares equal
to the original and feeds the identical data to the hasher — equality and
hash go through sorting of each interchangeable group, not storage
position. -/
theorem claim_C5_canonical_eq_hash (b : Board) (fc gc gm : List CardCell)
    (hf : fc.Perm b.freeCells) (hg : gc.Perm b.goalCells) (hm : gm.Perm b.gameCells) :
    boardEqB b ⟨b.jokerCell, fc, gc, gm⟩ = true ∧
    hashData b = hashData ⟨b.jokerCell, fc, gc, gm⟩ := by
  have h1 := sortCells_perm_inv _ _ hf
  have h2 := sortCells_perm_inv _ _ hg
  have h3 := sortCells_perm_inv _ _ hm
  constructor
  · simp [boardEqB, h1, h2, h3]
  · simp [hashData, h1, h2, h3]

/-- Witness for C5: a concrete board with all three groups rotated. -/
theorem claim_C5_canonical_eq_hash_witness :
    boardEqB selfMoveBoard
      ⟨selfMoveBoard.jokerCell,
       [.freeCell none, .freeCell none, .freeCell none],
       [.goalCell none, .goalCell none, .goalCell none],
       [.gameCell [], .gameCell [.number .red 5], .gameCell [], .gameCell [],
        .gameCell [], .gameCell [], .gameCell [], .gameCell []]⟩ = true ∧
    hashData selfMoveBoard
      = hashData ⟨selfMoveBoard.jokerCell,
       [.freeCell none, .freeCell none, .freeCell none],
       [.goalCell none, .goalCell none, .goalCell none],
       [.gameCell [], .gameCell [.number .red 5], .gameCell [], .gameCell [],
        .gameCell [], .gameCell [], .gameCell [], .gameCell []]⟩ :=
  claim_C5_canonical_eq_hash selfMoveBoard _ _ _ (by decide) (by decide) (by decide)

/-- The guard of `remove_dragons`' match arm: the cell's exposed top card
is the dragon of the given suit. -/
def dragonTop (suit : Suit) (c : CardCell) : Bool :=
  decide (c.top = some (Card.dragon suit))

/-- The per-cell effect of one `remove_dragons` visit: pop the cell if
its top is the suit's dragon, leave it untouched otherwise. -/
def popDragon (suit : Suit) (c : CardCell) : CardCell :=
  if c.top = some (Card.dragon suit) then c.pop else c

theorem dragonTop_false_of_ne (suit s : Suit) (c : CardCell)
    (htop : c.top = some (Card.dragon s)) (hs : ¬ s = suit) :
    dragonTop suit c = false := by
  rw [dragonTop, htop]
  simp only [decide_eq_false_iff_not]
  intro he
  have h1 : Card.dragon s = Card.dragon suit := by injection he
  have h2 : s = suit := by injection h1
  exact hs h2

theorem removeDragonsFrom_fst (suit : Suit) (cnt : Nat) (l : List CardCell)
    (h4 : cnt ≤ 4) :
    (removeDragonsFrom suit cnt l).1
      = min (cnt + l.countP (dragonTop suit)) 4 := by
  induction l generalizing cnt with
  | nil =>
    simp only [removeDragonsFrom, List.countP_nil]
    omega
  | cons c cs ih =>
    simp only [removeDragonsFrom]
    split
    next hcnt =>
      subst hcnt
      omega
    next hcnt =>
      rw [List.countP_cons]
      split
      next s htop =>
        split
        next hs =>
          rw [hs] at htop
          have hd : dragonTop suit c = true := by
            rw [dragonTop, htop]
            simp
          have hone : (if dragonTop suit c = true then 1 else 0) = 1 := by simp [hd]
          rw [hone, ih (cnt + 1) (by omega)]
          omega
        next hs =>
          have hd := dragonTop_false_of_ne suit s c htop hs
          have hzero : (if dragonTop suit c = true then 1 else 0) = 0 := by simp [hd]
          rw [hzero, ih cnt h4]
          omega
      next hother =>
        have hd : dragonTop suit c = false := by
          rw [dragonTop]
          simp only [decide_eq_false_iff_not]
          intro he
          exact hother suit he
        have hzero : (if dragonTop suit c = true then 1 else 0) = 0 := by simp [hd]
        rw [hzero, ih cnt h4]
        omega

theorem removeDragonsFrom_snd (suit : Suit) (cnt : Nat) (l : List CardCell)
    (h4 : cnt + l.countP (dragonTop suit) ≤ 4) :
    (removeDragonsFrom suit cnt l).2 = l.map (popDragon suit) := by
  induction l generalizing cnt with
  | nil => rfl
  | cons c cs ih =>
    rw [List.countP_cons] at h4
    simp only [removeDragonsFrom, List.map_cons]
    split
    next hcnt =>
      subst hcnt
      have hz : (c :: cs).countP (dragonTop suit) = 0 := by
        rw [List.countP_cons]
        omega
      have hid : ∀ a ∈ c :: cs, popDragon suit a = a := by
        intro a ha
        have hna := List.countP_eq_zero.mp hz a ha
        simp only [dragonTop, decide_eq_true_eq] at hna
        rw [popDragon, if_neg hna]
      show c :: cs = popDragon suit c :: List.map (popDragon suit) cs
      rw [hid c (List.mem_cons_self c cs)]
      congr 1
      exact ((List.map_congr_left fun a ha =>
        hid a (List.mem_cons_of_mem c ha)).trans (List.map_id cs)).symm
    next hcnt =>
      split
      next s htop =>
        split
        next hs =>
          rw [hs] at htop
          have hd : dragonTop suit c = true := by
            rw [dragonTop, htop]
            simp
          have hone : (if dragonTop suit c = true then 1 else 0) = 1 := by simp [hd]
          rw [hone] at h4
          have hpc : popDragon suit c = c.pop := by
            rw [popDragon, if_pos htop]
          rw [hpc, ih (cnt + 1) (by omega)]
        next hs =>
          have hd := dragonTop_false_of_ne suit s c htop hs
          have hzero : (if dragonTop suit c = true then 1 else 0) = 0 := by simp [hd]
          rw [hzero] at h4
          have hne : ¬ c.top = some (Card.dragon suit) := by
            rw [dragonTop, decide_eq_false_iff_not] at hd
            exact hd
          have hpc : popDragon suit c = c := by
            rw [popDragon, if_neg hne]
          rw [hpc, ih cnt (by omega)]
      next hother =>
        have hne : ¬ c.top = some (Card.dragon suit) :=
          fun he => hother suit he
        have hd : dragonTop suit c = false := by
          rw [dragonTop]
          simpa using hne
        have hzero : (if dragonTop suit c = true then 1 else 0) = 0 := by simp [hd]
        rw [hzero] at h4
        have hpc : popDragon suit c = c := by
          rw [popDragon, if_neg hne]
        rw [hpc, ih cnt (by omega)]

theorem placeDragonStack_isSome (l : List CardCell) :
    (placeDragonStack l).isSome = true ↔ ∃ c ∈ l, c.top = none := by
  induction l with
  | nil => simp [placeDragonStack]
  | cons c cs ih =>
    simp only [placeDragonStack]
    by_cases htop : c.top = none
    · rw [if_pos htop]
      simp only [Option.isSome_some, true_iff]
      exact ⟨c, List.mem_cons_self c cs, htop⟩
    · rw [if_neg htop]
      constructor
      · intro h
        rw [Option.isSome_map'] at h
        rcases (ih.mp h) with ⟨d, hd, hdt⟩
        exact ⟨d, List.mem_cons_of_mem c hd, hdt⟩
      · rintro ⟨d, hd, hdt⟩
        rw [Option.isSome_map']
        rcases List.mem_cons.mp hd with rfl | hd2
        · exact absurd hdt htop
        · exact ih.mpr ⟨d, hd2, hdt⟩

theorem placeDragonStack_shape (l l2 : List CardCell)
    (h : placeDragonStack l = some l2) :
    ∃ k, k < l.length ∧ (l.getD k junkCell).top = none ∧
      l2 = l.set k (.freeCell (some .dragonStack)) := by
  induction l generalizing l2 with
  | nil => simp [placeDragonStack] at h
  | cons c cs ih =>
    simp only [placeDragonStack] at h
    split at h
    next htop =>
      cases h
      exact ⟨0, by simp, by simpa using htop, rfl⟩
    next htop =>
      cases hm : placeDragonStack cs with
      | none =>
        rw [hm] at h
        simp at h
      | some cs2 =>
        rw [hm] at h
        have h2 : c :: cs2 = l2 := by simpa using h
        subst h2
        rcases ih cs2 hm with ⟨k, hk, hkt, hke⟩
        refine ⟨k + 1, by simpa using hk, ?_, ?_⟩
        · simpa using hkt
        · rw [List.set_cons_succ, hke]

theorem kindFree_shape (c : CardCell) (h : kindFree c = true) :
    ∃ o, c = CardCell.freeCell o := by
  cases c <;> simp [kindFree] at h ⊢

/-- Counterexample to C3 as stated: a board on which no free slot is
empty, yet `stack_dragons` succeeds — the fourth red dragon sits on a
column, the other three fill all three free slots, and the emptiness test
runs only after those free slots have been popped. -/
def dragonTrapBoard : Board :=
  ⟨.jokerCell true,
   [.freeCell (some (.dragon .red)), .freeCell (some (.dragon .red)),
    .freeCell (some (.dragon .red))],
   [.goalCell none, .goalCell none, .goalCell none],
   [.gameCell [.dragon .red], .gameCell [], .gameCell [], .gameCell [],
    .gameCell [], .gameCell [], .gameCell [], .gameCell []]⟩

/-- Claim C3, counterexample: every free slot of `dragonTrapBoard` is
occupied, yet `stack_dragons(Red)` succeeds; "at least one free slot is
empty" is not required when a free slot holds a dragon of the suit. -/
theorem claim_C3_counterexample :
    dragonTrapBoard.freeCells.all (fun c => c.top.isSome) = true ∧
    (dragonTrapBoard.stackDragons .red).isSome = true := by decide

/-- Claim C3, amended: on a board carrying at most four exposed dragons
of the suit (every reachable board does), `stack_dragons` succeeds iff
all four dragons of the suit are exposed tops and some free slot is
empty *or holds a dragon of that suit*; on success the joker and goal
cells are untouched, each game column merely loses its exposed suit
dragon, and the free slots lose their suit dragons with exactly one
then-empty slot replaced by the `DragonStack`.  Failure returns no
board, so no partial removal is observable. -/
theorem claim_C3_grouping (b : Board) (suit : Suit)
    (hw : b.wellKinded = true)
    (hexp : (b.gameCells ++ b.freeCells).countP (dragonTop suit) ≤ 4) :
    ((b.stackDragons suit).isSome = true ↔
      ((b.gameCells ++ b.freeCells).countP (dragonTop suit) = 4 ∧
        ∃ c ∈ b.freeCells, (c.top = none ∨ c.top = some (Card.dragon suit)))) ∧
    (∀ b2, b.stackDragons suit = some b2 →
      b2.jokerCell = b.jokerCell ∧ b2.goalCells = b.goalCells ∧
      b2.gameCells = b.gameCells.map (popDragon suit) ∧
      ∃ k, k < b.freeCells.length ∧
        ((b.freeCells.map (popDragon suit)).getD k junkCell).top = none ∧
        b2.freeCells
          = (b.freeCells.map (popDragon suit)).set k
              (.freeCell (some .dragonStack))) := by
  rw [List.countP_append] at hexp ⊢
  have hgle : b.gameCells.countP (dragonTop suit) ≤ 4 := by omega
  have hg1 : (removeDragonsFrom suit 0 b.gameCells).1
      = b.gameCells.countP (dragonTop suit) := by
    rw [removeDragonsFrom_fst suit 0 b.gameCells (by omega)]
    omega
  have hf1 : (removeDragonsFrom suit (removeDragonsFrom suit 0 b.gameCells).1
        b.freeCells).1
      = min (b.gameCells.countP (dragonTop suit)
          + b.freeCells.countP (dragonTop suit)) 4 := by
    rw [removeDragonsFrom_fst suit _ b.freeCells (by omega), hg1]
  have hg2 : (removeDragonsFrom suit 0 b.gameCells).2
      = b.gameCells.map (popDragon suit) :=
    removeDragonsFrom_snd suit 0 b.gameCells (by omega)
  have hf2 : (removeDragonsFrom suit (removeDragonsFrom suit 0 b.gameCells).1
        b.freeCells).2
      = b.freeCells.map (popDragon suit) := by
    apply removeDragonsFrom_snd
    rw [hg1]
    omega
  have hfreeKind : ∀ c ∈ b.freeCells, kindFree c = true := by
    rw [Board.wellKinded] at hw
    simp only [Bool.and_eq_true, List.all_eq_true] at hw
    exact hw.1.1.2
  have hfreeTop : ∀ c ∈ b.freeCells,
      ((popDragon suit c).top = none ↔
        (c.top = none ∨ c.top = some (Card.dragon suit))) := by
    intro c hc
    rcases kindFree_shape c (hfreeKind c hc) with ⟨o, rfl⟩
    cases o with
    | none => simp [popDragon, CardCell.top]
    | some card =>
      by_cases hcd : card = Card.dragon suit
      · subst hcd
        simp [popDragon, CardCell.top, CardCell.pop]
      · simp only [popDragon, CardCell.top]
        rw [if_neg (by simpa using hcd)]
        simp [CardCell.top, hcd]
  constructor
  · rw [Board.stackDragons, Board.removeDragons]
    constructor
    · intro h
      split at h
      next hcond =>
        rw [decide_eq_true_eq, hf1] at hcond
        refine ⟨by omega, ?_⟩
        rw [Option.isSome_map'] at h
        rcases (placeDragonStack_isSome _).mp h with ⟨c, hc, hct⟩
        rw [hf2] at hc
        rcases List.mem_map.mp hc with ⟨c0, hc0, rfl⟩
        exact ⟨c0, hc0, (hfreeTop c0 hc0).mp hct⟩
      next => simp at h
    · rintro ⟨hcount, c0, hc0, hct⟩
      rw [if_pos ?_]
      · rw [Option.isSome_map']
        apply (placeDragonStack_isSome _).mpr
        refine ⟨popDragon suit c0, ?_, (hfreeTop c0 hc0).mpr hct⟩
        rw [hf2]
        exact List.mem_map.mpr ⟨c0, hc0, rfl⟩
      · rw [decide_eq_true_eq, hf1]
        omega
  · intro b2 h
    rw [Board.stackDragons, Board.removeDragons] at h
    split at h
    next hcond =>
      cases hm : placeDragonStack
          (removeDragonsFrom suit (removeDragonsFrom suit 0 b.gameCells).1
            b.freeCells).2 with
      | none =>
        rw [hm] at h
        simp at h
      | some fl =>
        rw [hm] at h
        have h2 : Board.mk b.jokerCell fl b.goalCells
            (removeDragonsFrom suit 0 b.gameCells).2 = b2 := by
          simpa using h
        subst h2
        rw [hf2] at hm
        rcases placeDragonStack_shape _ fl hm with ⟨k, hk, hkt, hke⟩
        refine ⟨rfl, rfl, hg2, k, by simpa using hk, hkt, hke⟩
    next => simp at h

/-- Witness for the amended C3 on the counterexample board itself: the
success condition holds with occupied-by-red-dragon free slots. -/
theorem claim_C3_grouping_witness :
    (((dragonTrapBoard.stackDragons .red).isSome = true ↔
      ((dragonTrapBoard.gameCells ++ dragonTrapBoard.freeCells).countP
          (dragonTop .red) = 4 ∧
        ∃ c ∈ dragonTrapBoard.freeCells,
          (c.top = none ∨ c.top = some (Card.dragon .red)))) ∧
    (∀ b2, dragonTrapBoard.stackDragons .red = some b2 →
      b2.jokerCell = dragonTrapBoard.jokerCell ∧
      b2.goalCells = dragonTrapBoard.goalCells ∧
      b2.gameCells = dragonTrapBoard.gameCells.map (popDragon .red) ∧
      ∃ k, k < dragonTrapBoard.freeCells.length ∧
        ((dragonTrapBoard.freeCells.map (popDragon .red)).getD k junkCell).top
          = none ∧
        b2.freeCells
          = (dragonTrapBoard.freeCells.map (popDragon .red)).set k
              (.freeCell (some .dragonStack)))) :=
  claim_C3_grouping dragonTrapBoard .red (by decide) (by decide)

end Shenzhen
